import Mathlib

/-!
Verification development for the LAIOS agent runtime specification.

The repository ships only the test suite and examples; the runtime package
itself is not part of the sources at hand.  Every definition below is
therefore a shallow model reconstructed from the natural-language
specification (spec.md), with the test suite used as a behavioural check.
Wall-clock time is modelled by explicit numeric timestamps, exceptions by
`Except`, and mutable objects by explicit state passing.
-/

namespace LaiosSpec

/-- Modelled from the spec: task status state machine
`PENDING → RUNNING → COMPLETED | FAILED | CANCELLED`. -/
inductive TaskStatus
  | PENDING
  | RUNNING
  | COMPLETED
  | FAILED
  | CANCELLED
deriving DecidableEq, Repr

/-! ## Character-level string utilities

The runtime manipulates strings; these helpers work on the underlying
character lists so that every definition evaluates by kernel reduction. -/

/-- Does `needle` occur as a contiguous sublist of `hay`? -/
def listHasSub : List Char → List Char → Bool
  | needle, [] => needle.isEmpty
  | needle, c :: rest => needle.isPrefixOf (c :: rest) || listHasSub needle rest

/-- Substring test on strings. -/
def containsSub (needle s : String) : Bool :=
  listHasSub needle.data s.data

/-- Character-level string prefix test. -/
def strIsPrefixOf (p s : String) : Bool :=
  p.data.isPrefixOf s.data

/-- Split a character list at each occurrence of `sep`, keeping empty
segments. -/
def splitOnSep (sep : Char) : List Char → List (List Char)
  | [] => [[]]
  | c :: rest =>
    let r := splitOnSep sep rest
    if c == sep then [] :: r else (c :: r.headI) :: r.tail

/-! ## Circuit breaker (spec section 4.5, claim C1) -/

/-- Modelled from the spec: the three circuit states. -/
inductive CircuitState
  | CLOSED
  | OPEN
  | HALF_OPEN
deriving DecidableEq, Repr

/-- Modelled from the spec: per-operation circuit breaker state.  The
implementation module `laios.hardening.circuit_breaker` is not in the
sources; timestamps are natural numbers on a monotone clock. -/
structure CircuitBreaker where
  failure_threshold : Nat
  recovery_timeout : Nat
  state : CircuitState
  failure_count : Nat
  success_count : Nat
  opened_at : Nat
deriving DecidableEq, Repr

/-- Modelled from the spec: a freshly constructed breaker starts `CLOSED`
with zero counters. -/
def CircuitBreaker.make (ft rt : Nat) : CircuitBreaker :=
  { failure_threshold := ft, recovery_timeout := rt, state := .CLOSED
    failure_count := 0, success_count := 0, opened_at := 0 }

/-- Modelled from the spec: the state observed at time `now`; a breaker
stored `OPEN` reads as `HALF_OPEN` once `now - opened_at ≥ recovery_timeout`. -/
def CircuitBreaker.effState (cb : CircuitBreaker) (now : Nat) : CircuitState :=
  match cb.state with
  | .OPEN => if cb.recovery_timeout ≤ now - cb.opened_at then .HALF_OPEN else .OPEN
  | s => s

/-- Outcome of one `call` through the breaker: rejected without running the
body, or the body ran with the given success flag. -/
inductive CallOutcome
  | rejected
  | ran (success : Bool)
deriving DecidableEq, Repr

/-- Modelled from the spec: `call` at time `now` with a body whose success
is `bodySucceeds`.  `OPEN` rejects with `CircuitBreakerError`; `HALF_OPEN`
runs one trial (success closes, failure reopens and restamps the timer);
`CLOSED` counts consecutive failures and opens on the threshold-th. -/
def CircuitBreaker.call (cb : CircuitBreaker) (now : Nat) (bodySucceeds : Bool) :
    CallOutcome × CircuitBreaker :=
  match cb.effState now with
  | .OPEN => (.rejected, cb)
  | .HALF_OPEN =>
    if bodySucceeds then
      (.ran true, { cb with state := .CLOSED, failure_count := 0,
                            success_count := cb.success_count + 1 })
    else
      (.ran false, { cb with state := .OPEN, opened_at := now,
                             failure_count := cb.failure_count + 1 })
  | .CLOSED =>
    if bodySucceeds then
      (.ran true, { cb with state := .CLOSED, failure_count := 0,
                            success_count := cb.success_count + 1 })
    else if cb.failure_threshold ≤ cb.failure_count + 1 then
      (.ran false, { cb with state := .OPEN, opened_at := now,
                             failure_count := cb.failure_count + 1 })
    else
      (.ran false, { cb with failure_count := cb.failure_count + 1 })

/-! ## Retry loop (spec section 4.6, claim C2) -/

/-- Result of `execute_with_retry`: how many times the tool body was
invoked, whether the final attempt succeeded, and the
`metadata.retry_exhausted` flag. -/
structure RetryResult where
  invocations : Nat
  success : Bool
  retry_exhausted : Bool
deriving DecidableEq, Repr

/-- Modelled from the spec: the attempt loop of `execute_with_retry`.
`body i` is the success of the i-th invocation of the tool body;
`remaining` is the number of retries still allowed after the current
attempt.  Returns (number of invocations, final success). -/
def retryLoop (body : Nat → Bool) : Nat → Nat → Nat × Bool
  | attempt, remaining =>
    if body attempt then (1, true)
    else
      match remaining with
      | 0 => (1, false)
      | r + 1 =>
        let p := retryLoop body (attempt + 1) r
        (p.1 + 1, p.2)

/-- Modelled from the spec: `execute_with_retry(task, context, max_retries)`.
If the task is cancelled or the circuit breaker is open, the body is not
invoked and no retry is attempted; otherwise the body runs up to
`max_retries + 1` times and `retry_exhausted` is set when every attempt
failed. -/
def execute_with_retry (body : Nat → Bool) (cancelled breakerOpen : Bool)
    (max_retries : Nat) : RetryResult :=
  if cancelled || breakerOpen then
    { invocations := 0, success := false, retry_exhausted := false }
  else
    let p := retryLoop body 0 max_retries
    { invocations := p.1, success := p.2, retry_exhausted := !p.2 }

/-! ## Execution monitor statistics (claim C10) -/

/-- Modelled from the spec and the monitor tests: aggregate statistics
over a task list. -/
structure ExecutionStats where
  total_tasks : Nat
  completed_tasks : Nat
  failed_tasks : Nat
  running_tasks : Nat
  success_rate : ℚ
deriving DecidableEq, Repr

/-- Modelled from the spec: `ExecutionMonitor.get_execution_stats` counts
tasks by status and reports `success_rate = completed / total`, with `0.0`
for an empty list. -/
def get_execution_stats (statuses : List TaskStatus) : ExecutionStats :=
  let total := statuses.length
  let completed := statuses.countP (· == .COMPLETED)
  let failed := statuses.countP (· == .FAILED)
  let running := statuses.countP (· == .RUNNING)
  { total_tasks := total
    completed_tasks := completed
    failed_tasks := failed
    running_tasks := running
    success_rate := if total = 0 then 0 else (completed : ℚ) / (total : ℚ) }

/-! ## Plan scheduling (spec section 4.6, claim C3) -/

/-- Modelled from the spec: the slice of a `Task` the scheduler reads and
writes — id, declared dependency ids, status, and the error string. -/
structure SchedTask where
  id : String
  dependencies : List String
  status : TaskStatus
  error : Option String
deriving DecidableEq, Repr

/-- Status of the task with the given id inside a plan's task list. -/
def statusOf (tasks : List SchedTask) (i : String) : Option TaskStatus :=
  (tasks.find? (fun t => t.id == i)).map (·.status)

/-- Modelled from the spec glossary: all of a task's dependencies are
`COMPLETED`. -/
def depsCompleted (tasks : List SchedTask) (t : SchedTask) : Bool :=
  t.dependencies.all (fun d => statusOf tasks d == some .COMPLETED)

/-- Some dependency is `FAILED` or `CANCELLED`, so the task can never
become ready. -/
def depBlocked (tasks : List SchedTask) (t : SchedTask) : Bool :=
  t.dependencies.any (fun d =>
    statusOf tasks d == some .FAILED || statusOf tasks d == some .CANCELLED)

/-- Modelled from the spec glossary: the ready set — tasks whose status is
`PENDING` and all of whose dependencies are `COMPLETED`
(`Plan.get_ready_tasks`). -/
def get_ready_tasks (tasks : List SchedTask) : List SchedTask :=
  tasks.filter (fun t => t.status == .PENDING && depsCompleted tasks t)

/-- Modelled from the spec: one scheduler round.  Every ready task is
dispatched and runs to completion with outcome `outcome id` (the
synchronous model does not leave tasks `RUNNING` between rounds); every
`PENDING` task with a `FAILED` or `CANCELLED` dependency is marked
`CANCELLED` with `error="dependency failed"`; everything else is left
alone. -/
def stepTask (outcome : String → Bool) (tasks : List SchedTask)
    (t : SchedTask) : SchedTask :=
  if t.status == .PENDING then
    if depsCompleted tasks t then
      if outcome t.id then { t with status := .COMPLETED }
      else { t with status := .FAILED, error := some "execution failed" }
    else if depBlocked tasks t then
      { t with status := .CANCELLED, error := some "dependency failed" }
    else t
  else t

def stepPlan (outcome : String → Bool) (tasks : List SchedTask) : List SchedTask :=
  tasks.map (stepTask outcome tasks)

/-- Modelled from the spec: iterate scheduler rounds `fuel` times. -/
def runPlan (outcome : String → Bool) (tasks : List SchedTask) : Nat → List SchedTask
  | 0 => tasks
  | n + 1 => runPlan outcome (stepPlan outcome tasks) n

/-- Modelled from the spec: the plan is complete when no task is `PENDING`
or `RUNNING`. -/
def planDone (tasks : List SchedTask) : Bool :=
  tasks.all (fun t => !(t.status == .PENDING) && !(t.status == .RUNNING))

/-- Modelled from the spec: plan success is the conjunction of all task
successes (every task `COMPLETED`). -/
def planSuccess (tasks : List SchedTask) : Bool :=
  tasks.all (fun t => t.status == .COMPLETED)

/-- Number of `PENDING` tasks, the measure the scheduler strictly
decreases each round until done. -/
def pendCount (tasks : List SchedTask) : Nat :=
  tasks.countP (fun t => t.status == .PENDING)

/-! ## Plugin hook chaining (spec section 4.3, claim C4) -/

/-- Modelled from the spec: the slice of a plugin the `on_before_task`
dispatch reads — its enabled flag and its hook, which receives the task
id, tool name and working parameters and returns either a replacement
mapping or `none` for "no change". -/
structure HookPlugin (α : Type) where
  name : String
  enabled : Bool
  on_before_task : String → String → α → Option α

/-- Modelled from the spec: `PluginRegistry.dispatch_before_task` — a
left-to-right chain over the plugins in load order, starting from the
caller's parameters; a non-null return replaces the working mapping, a
null return leaves it unchanged, disabled plugins are skipped. -/
def dispatch_before_task {α : Type} (plugins : List (HookPlugin α))
    (task_id tool_name : String) (params : α) : α :=
  plugins.foldl
    (fun acc p =>
      if p.enabled then (p.on_before_task task_id tool_name acc).getD acc else acc)
    params

/-! ## Plugin dependency resolution (spec section 4.3, claim C5) -/

/-- Modelled from the spec: a plugin declaration as seen by the loader —
its name and the names of the plugins it depends on. -/
structure PluginSpec where
  name : String
  dependencies : List String
deriving DecidableEq, Repr

/-- Modelled from the spec: the two `DependencyError` shapes —
missing dependencies (listing them) and a circular dependency (naming the
plugins involved). -/
inductive DependencyError
  | missing (names : List String)
  | circular (names : List String)
deriving DecidableEq, Repr

/-- Names of the provided plugins. -/
def providedNames (ps : List PluginSpec) : List String := ps.map (·.name)

/-- Declared dependencies that name no provided plugin. -/
def missingDeps (ps : List PluginSpec) : List String :=
  (ps.foldr (fun p acc => p.dependencies ++ acc) []).filter
    (fun d => !(providedNames ps).contains d)

/-- A plugin in `remaining` all of whose dependencies are already placed. -/
def readyPick (placed : List String) (remaining : List PluginSpec) :
    Option PluginSpec :=
  remaining.find? (fun p => p.dependencies.all placed.contains)

/-- Modelled from the spec: Kahn-style topological ordering.  `placed`
holds the names already ordered, `acc` the order built so far; when no
remaining plugin has all dependencies placed, the remaining plugins form
a dependency cycle and loading fails naming them. -/
def topoLoop : Nat → List String → List PluginSpec → List PluginSpec →
    Except DependencyError (List PluginSpec)
  | _, _, acc, [] => Except.ok acc
  | 0, _, _, r :: rs => Except.error (.circular ((r :: rs).map (·.name)))
  | fuel + 1, placed, acc, r :: rs =>
    match readyPick placed (r :: rs) with
    | none => Except.error (.circular ((r :: rs).map (·.name)))
    | some p => topoLoop fuel (p.name :: placed) (acc ++ [p]) ((r :: rs).erase p)

/-- Modelled from the spec: `PluginLoader.resolve_load_order` — reject
missing dependencies first, then topologically order by `dependencies`. -/
def resolve_load_order (ps : List PluginSpec) :
    Except DependencyError (List PluginSpec) :=
  if missingDeps ps ≠ [] then Except.error (.missing (missingDeps ps))
  else topoLoop ps.length [] [] ps

/-- Modelled from the spec: loading loads plugins in resolved order; when
resolution fails no plugin is loaded and the error surfaces. -/
def load_plugins (ps : List PluginSpec) : Except DependencyError (List String) :=
  match resolve_load_order ps with
  | Except.error e => Except.error e
  | Except.ok order => Except.ok (order.map (·.name))

/-- The direct dependency relation: `a` depends on `b` when some provided
plugin named `a` lists `b` among its dependencies. -/
def DependsOn (ps : List PluginSpec) (a b : String) : Prop :=
  ∃ p ∈ ps, p.name = a ∧ b ∈ p.dependencies

/-- A valid topological order: every plugin's dependencies are all among
the names placed before it. -/
def isValidOrder (placed : List String) : List PluginSpec → Bool
  | [] => true
  | p :: rest => p.dependencies.all placed.contains && isValidOrder (p.name :: placed) rest

/-! ## Event bus (spec section 4.2, claim C6) -/

/-- Modelled from the spec: topic matching — the global wildcard `*`, or a
dot-separated pattern whose segments match the name's segments with `*`
as a single-segment wildcard. -/
def topicMatches (pattern name : String) : Bool :=
  if pattern == "*" then true
  else
    let ps := splitOnSep '.' pattern.data
    let ns := splitOnSep '.' name.data
    ps.length == ns.length
      && (ps.zip ns).all (fun pr => pr.1 == ['*'] || pr.1 == pr.2)

/-- Modelled from the spec: a subscription — its pattern, a handler id,
and whether the handler raises when invoked. -/
structure Subscription where
  pattern : String
  hid : Nat
  throws : Bool
deriving DecidableEq, Repr

/-- One handler invocation record: which handler ran and whether its
exception was caught. -/
structure EmitRecord where
  hid : Nat
  errored : Bool
deriving DecidableEq, Repr

/-- Modelled from the spec: `emit(name, data)` walks the subscriptions in
subscription order and invokes every matching handler; an exception from
a handler is caught (recorded as `errored`) and the walk continues with
the remaining handlers. -/
def emitRun : List Subscription → String → List EmitRecord
  | [], _ => []
  | s :: rest, name =>
    if topicMatches s.pattern name then
      { hid := s.hid, errored := s.throws } :: emitRun rest name
    else emitRun rest name

/-- Modelled from the spec: default bound of the event history. -/
def max_history_default : Nat := 1000

/-- Modelled from the spec: append one event name to the bounded history,
keeping only the `maxH` most recent events (most recent first). -/
def pushHistory (maxH : Nat) (hist : List String) (e : String) : List String :=
  (e :: hist).take maxH

/-- History after emitting the given event names in order, starting from
an empty history. -/
def historyAfter (maxH : Nat) (events : List String) : List String :=
  events.foldl (pushHistory maxH) []

/-! ## Rate limiter (spec section 4.5, claim C7) -/

/-- Modelled from the spec: a token bucket — current tokens and the time
of the last touch.  Tokens and timestamps are rationals. -/
structure Bucket where
  tokens : ℚ
  last : ℚ
deriving DecidableEq, Repr

/-- Modelled from the spec: refill by elapsed time times the rate, clamped
to the capacity. -/
def refillBucket (rate : ℚ) (cap : Nat) (b : Bucket) (now : ℚ) : Bucket :=
  { tokens := min (cap : ℚ) (b.tokens + (now - b.last) * rate), last := now }

/-- Replace (or insert) the bucket stored under `key`. -/
def setBucket : List (String × Bucket) → String → Bucket → List (String × Bucket)
  | [], k, b => [(k, b)]
  | (k', b') :: rest, k, b =>
    if k' == k then (k, b) :: rest else (k', b') :: setBucket rest k b

/-- Modelled from the spec: rate-limiter state — per-key rate `R` and
capacity `C`, the per-key buckets, and the optional global bucket with
its own rate and capacity. -/
structure RateLimiter where
  rate : ℚ
  capacity : Nat
  buckets : List (String × Bucket)
  has_global : Bool
  global_rate : ℚ
  global_capacity : Nat
  global_bucket : Bucket
deriving DecidableEq, Repr

/-- The bucket consulted for `key` at time `now`: the stored one, or a
fresh full bucket for a key never seen. -/
def RateLimiter.bucketFor (rl : RateLimiter) (key : String) (now : ℚ) : Bucket :=
  match rl.buckets.lookup key with
  | some b => b
  | none => { tokens := (rl.capacity : ℚ), last := now }

/-- Modelled from the spec: `check(key)` — the optional global bucket is
consulted first (its exhaustion raises `RateLimitExceeded("Global")`
regardless of the per-key bucket), then the per-key bucket is refilled by
the elapsed time and one token is consumed; fewer than one token raises
`RateLimitExceeded(key)`.  The raised key travels in the `error`. -/
def RateLimiter.check (rl : RateLimiter) (key : String) (now : ℚ) :
    Except String RateLimiter :=
  if rl.has_global = true
      ∧ (refillBucket rl.global_rate rl.global_capacity rl.global_bucket now).tokens < 1
  then Except.error "Global"
  else if (refillBucket rl.rate rl.capacity (rl.bucketFor key now) now).tokens < 1
  then Except.error key
  else Except.ok
    { rl with
      buckets := setBucket rl.buckets key
        { tokens := (refillBucket rl.rate rl.capacity (rl.bucketFor key now) now).tokens - 1,
          last := now },
      global_bucket :=
        if rl.has_global = true then
          { tokens := (refillBucket rl.global_rate rl.global_capacity
              rl.global_bucket now).tokens - 1,
            last := now }
        else rl.global_bucket }

/-- Modelled from the spec: `reset(key)` refills that key's bucket fully. -/
def RateLimiter.reset (rl : RateLimiter) (key : String) (now : ℚ) : RateLimiter :=
  { rl with buckets := setBucket rl.buckets key { tokens := (rl.capacity : ℚ), last := now } }

/-- `n` consecutive `check(key)` calls at the same instant; stops at the
first raise. -/
def RateLimiter.checkN (rl : RateLimiter) (key : String) (now : ℚ) :
    Nat → Except String RateLimiter
  | 0 => Except.ok rl
  | n + 1 =>
    match rl.check key now with
    | Except.ok rl' => rl'.checkN key now n
    | Except.error e => Except.error e

/-! ## Reflector task evaluation (spec section 4.8, claim C8) -/

/-- Modelled from the spec: the slice of `TaskResult` the task evaluation
reads. -/
structure EvalResult where
  success : Bool
  error : Option String
  execution_time_seconds : ℚ
deriving DecidableEq, Repr

/-- Modelled from the spec: the slice of a task the evaluation reads —
`metadata.expected_time_seconds` when present. -/
structure EvalTask where
  expected_time_seconds : Option ℚ
deriving DecidableEq, Repr

/-- Modelled from the spec: `TaskEvaluation`. -/
structure TaskEvaluation where
  success : Bool
  confidence : ℚ
  issues : List String
  suggestions : List String
  should_replan : Bool
deriving DecidableEq, Repr

/-- Modelled from the spec: error-text categorization against the fixed
taxonomy; each category maps to a canned suggestion list. -/
def suggestionsFor (e : String) : List String :=
  if containsSub "timeout" e then
    ["Increase the timeout", "Break the task into smaller steps"]
  else if containsSub "permission" e then
    ["Request the needed permission"]
  else if containsSub "not found" e then
    ["Verify the resource exists before the task runs"]
  else
    ["Retry the task", "Check the tool parameters"]

/-- Modelled from the spec: `Reflector.evaluate_task`.  A successful
result scores confidence 0.9, a failed one 0.2; if the execution time
exceeds `maxMult` times `metadata.expected_time_seconds` the evaluation is
marked unsuccessful with a "took too long" issue and a parallelize or
tighten-inputs suggestion, even when the result itself succeeded. -/
def evaluate_task (maxMult : ℚ) (task : EvalTask) (result : EvalResult) :
    TaskEvaluation :=
  let base : TaskEvaluation :=
    if result.success then
      { success := true, confidence := 9/10, issues := [], suggestions := [],
        should_replan := false }
    else
      { success := false, confidence := 2/10,
        issues := ["Task failed: " ++ result.error.getD ""],
        suggestions := suggestionsFor (result.error.getD ""),
        should_replan := true }
  let slow := match task.expected_time_seconds with
    | some expected => decide (maxMult * expected < result.execution_time_seconds)
    | none => false
  if slow then
    { base with success := false,
                issues := base.issues ++ ["Task took too long"],
                suggestions := base.suggestions ++
                  ["Parallelize the task or tighten its inputs"] }
  else base

/-! ## Input sanitizer (spec section 4.5, claim C9) -/

/-- Strip ASCII null bytes from a string. -/
def stripNulls (s : String) : String :=
  ⟨s.data.filter (fun c => !(c == Char.ofNat 0))⟩

/-- Modelled from the spec: `sanitize_input` — reject strings longer than
`maxLen`, then strip ASCII null bytes. -/
def sanitize_input (maxLen : Nat) (s : String) : Except String String :=
  if maxLen < s.length then Except.error "Input exceeds maximum length"
  else Except.ok (stripNulls s)

/-- Modelled from the spec glossary: the shell metacharacter blocklist —
semicolon, pipe, backtick, command substitution, logical chaining, and
pipelines into a shell. -/
def shell_metacharacters : List String :=
  [";", "|", String.singleton (Char.ofNat 96), "$(", "&&", "||",
   "| bash", "| sh", "| zsh"]

/-- Modelled from the spec: `sanitize_command` — reject commands holding a
blocklisted shell metacharacter, otherwise return the command unchanged. -/
def sanitize_command (s : String) : Except String String :=
  if shell_metacharacters.any (fun m => containsSub m s) then
    Except.error "Command contains dangerous pattern"
  else Except.ok s

/-- Split a character list at each slash, keeping empty segments. -/
def splitSlash : List Char → List (List Char) :=
  splitOnSep '/'

/-- Join segments with slashes. -/
def joinSlash : List (List Char) → List Char
  | [] => []
  | [s] => s
  | s :: ss => s ++ '/' :: joinSlash ss

/-- A path segment the canonical form keeps: nonempty and neither `.`
nor `..`. -/
def keepSeg (seg : List Char) : Bool :=
  !(seg == []) && !(seg == ['.']) && !(seg == ['.', '.'])

/-- One canonicalization step: drop empty and `.` segments, let `..` pop
the previous segment, keep anything else. -/
def normStep (acc : List (List Char)) (seg : List Char) : List (List Char) :=
  if seg == [] || seg == ['.'] then acc
  else if seg == ['.', '.'] then acc.dropLast
  else acc ++ [seg]

/-- Modelled from the spec: canonicalize path segments — drop empty and
`.` segments, let `..` pop the previous segment. -/
def normSegs (segs : List (List Char)) : List (List Char) :=
  segs.foldl normStep []

/-- Modelled from the spec: lexical path canonicalization (resolve `..`
against the root), producing an absolute slash-separated path. -/
def normalizePath (s : String) : String :=
  ⟨'/' :: joinSlash (normSegs (splitSlash s.data))⟩

/-- Modelled from the spec: default blocklisted path prefixes on POSIX. -/
def blocked_paths_default : List String :=
  ["/etc/shadow", "/etc/passwd", "/etc/sudoers"]

/-- Modelled from the spec: `sanitize_path` — canonicalize, then reject
canonical paths starting with a blocklisted prefix. -/
def sanitize_path (blocked : List String) (s : String) : Except String String :=
  if blocked.any (fun b => strIsPrefixOf b (normalizePath s)) then
    Except.error "Path is blocked"
  else Except.ok (normalizePath s)

/-- Modelled from the spec: the URL scheme allow-list. -/
def allowed_url_schemes : List String := ["http", "https"]

/-- Modelled from the spec: `_check_url_safety` — accept only allow-listed
schemes, returning the URL unchanged. -/
def sanitize_url (s : String) : Except String String :=
  if allowed_url_schemes.any (fun sch => strIsPrefixOf (sch ++ "://") s) then
    Except.ok s
  else Except.error "URL scheme not allowed"

/-! ## Theorems -/

theorem retryLoop_first_success (body : Nat → Bool) (a r : Nat)
    (h : body a = true) : retryLoop body a r = (1, true) := by
  rw [retryLoop.eq_def]
  simp [h]

theorem retryLoop_invocations_le (body : Nat → Bool) :
    ∀ r a, (retryLoop body a r).1 ≤ r + 1 := by
  intro r
  induction r with
  | zero => intro a; rw [retryLoop]; split <;> simp
  | succ r ih =>
    intro a
    rw [retryLoop]
    split
    · simp
    · simpa using Nat.succ_le_succ (ih (a + 1))

theorem retryLoop_all_fail (body : Nat → Bool) (h : ∀ i, body i = false) :
    ∀ r a, retryLoop body a r = (r + 1, false) := by
  intro r
  induction r with
  | zero => intro a; rw [retryLoop]; simp [h]
  | succ r ih => intro a; rw [retryLoop]; simp [h, ih (a + 1)]

/-- C2: `execute_with_retry(task, context, max_retries=N)` invokes the
tool body at most `N+1` times; exactly once when the first attempt
succeeds; when every attempt fails the result has `success = false` and
`metadata.retry_exhausted = true`; and no invocation or retry happens
when the task is cancelled or the circuit breaker is open. -/
theorem C2_execute_with_retry (body : Nat → Bool) (cancelled breakerOpen : Bool)
    (N : Nat) :
    (execute_with_retry body cancelled breakerOpen N).invocations ≤ N + 1
    ∧ (cancelled = false → breakerOpen = false → body 0 = true →
        execute_with_retry body cancelled breakerOpen N
          = { invocations := 1, success := true, retry_exhausted := false })
    ∧ (cancelled = false → breakerOpen = false → (∀ i, body i = false) →
        (execute_with_retry body cancelled breakerOpen N).success = false
        ∧ (execute_with_retry body cancelled breakerOpen N).retry_exhausted = true)
    ∧ (cancelled = true ∨ breakerOpen = true →
        (execute_with_retry body cancelled breakerOpen N).invocations = 0) := by
  refine ⟨?_, ?_, ?_, ?_⟩
  · unfold execute_with_retry
    split
    · simp
    · simpa using retryLoop_invocations_le body N 0
  · intro hc hb h0
    unfold execute_with_retry
    rw [hc, hb]
    simp [retryLoop_first_success body 0 N h0]
  · intro hc hb hall
    unfold execute_with_retry
    rw [hc, hb]
    simp [retryLoop_all_fail body hall N 0]
  · intro h
    unfold execute_with_retry
    rcases h with h | h <;> simp [h]

theorem C2_execute_with_retry_witness :
    ((execute_with_retry (fun _ => true) false false 2).invocations ≤ 3
      ∧ execute_with_retry (fun _ => true) false false 2
          = { invocations := 1, success := true, retry_exhausted := false })
    ∧ ((execute_with_retry (fun _ => false) false false 2).success = false
      ∧ (execute_with_retry (fun _ => false) false false 2).retry_exhausted = true)
    ∧ (execute_with_retry (fun _ => true) true false 2).invocations = 0 := by
  refine ⟨⟨(C2_execute_with_retry (fun _ => true) false false 2).1,
          (C2_execute_with_retry (fun _ => true) false false 2).2.1 rfl rfl rfl⟩,
         (C2_execute_with_retry (fun _ => false) false false 2).2.2.1 rfl rfl
           (fun _ => rfl),
         (C2_execute_with_retry (fun _ => true) true false 2).2.2.2 (Or.inl rfl)⟩

/-- C10: `get_execution_stats` computes `success_rate` as the number of
`COMPLETED` tasks over the total number of tasks — `RUNNING` and `FAILED`
count in the denominator but not the numerator — and returns `0.0` for an
empty task list instead of dividing by zero. -/
theorem C10_execution_stats (statuses : List TaskStatus) :
    (get_execution_stats statuses).total_tasks = statuses.length
    ∧ (get_execution_stats statuses).completed_tasks
        = (statuses.filter (· == TaskStatus.COMPLETED)).length
    ∧ (statuses = [] → (get_execution_stats statuses).success_rate = 0)
    ∧ (statuses ≠ [] →
        (get_execution_stats statuses).success_rate
          = (((statuses.filter (· == TaskStatus.COMPLETED)).length : ℚ)
              / (statuses.length : ℚ))) := by
  refine ⟨rfl, ?_, ?_, ?_⟩
  · simp [get_execution_stats, List.countP_eq_length_filter]
  · intro h; subst h; rfl
  · intro h
    have hne : statuses.length ≠ 0 :=
      Nat.pos_iff_ne_zero.mp (List.length_pos.mpr h)
    simp [get_execution_stats, hne, List.countP_eq_length_filter]

theorem C10_execution_stats_witness :
    (get_execution_stats []).success_rate = 0
    ∧ (get_execution_stats
        [TaskStatus.COMPLETED, TaskStatus.FAILED, TaskStatus.RUNNING]).success_rate
        = 1 / 3 := by
  refine ⟨(C10_execution_stats []).2.2.1 rfl, ?_⟩
  have h := (C10_execution_stats
    [TaskStatus.COMPLETED, TaskStatus.FAILED, TaskStatus.RUNNING]).2.2.2 (by decide)
  have h2 : (List.filter (· == TaskStatus.COMPLETED)
      [TaskStatus.COMPLETED, TaskStatus.FAILED, TaskStatus.RUNNING]).length = 1 := by
    decide
  rw [h, h2]
  norm_num

/-- C4: `dispatch_before_task` is a left-to-right chain in load order:
splitting the plugin list splits the chain, two modifying plugins compose
(the tool sees P2's transform of P1's output), an all-null chain passes
the original mapping through unchanged, and disabled plugins are
skipped. -/
theorem C4_before_task_chain {α : Type} (plugins qs : List (HookPlugin α))
    (p1 p2 skipped : HookPlugin α) (tid tn : String) (x y z : α) :
    (dispatch_before_task (plugins ++ qs) tid tn x
      = dispatch_before_task qs tid tn (dispatch_before_task plugins tid tn x))
    ∧ (p1.enabled = true → p2.enabled = true →
        p1.on_before_task tid tn x = some y → p2.on_before_task tid tn y = some z →
        dispatch_before_task [p1, p2] tid tn x = z)
    ∧ ((∀ p ∈ plugins, p.enabled = true → p.on_before_task tid tn x = none) →
        dispatch_before_task plugins tid tn x = x)
    ∧ (skipped.enabled = false →
        dispatch_before_task (plugins ++ skipped :: qs) tid tn x
          = dispatch_before_task (plugins ++ qs) tid tn x) := by
  refine ⟨?_, ?_, ?_, ?_⟩
  · simp [dispatch_before_task, List.foldl_append]
  · intro h1 h2 hx hy
    simp [dispatch_before_task, h1, h2, hx, hy]
  · intro h
    induction plugins with
    | nil => rfl
    | cons p ps ih =>
      have hp := h p (List.mem_cons_self p ps)
      have ih' := ih (fun q hq => h q (List.mem_cons_of_mem p hq))
      by_cases hep : p.enabled = true
      · simp only [dispatch_before_task, List.foldl_cons, hep, if_true, hp hep,
          Option.getD_none]
        exact ih'
      · simp only [dispatch_before_task, List.foldl_cons, hep, if_false]
        exact ih'
  · intro h
    simp [dispatch_before_task, List.foldl_append, h]

theorem C4_before_task_chain_witness :
    dispatch_before_task
        [⟨"p1", true, fun _ _ n => some (n + 1)⟩,
         ⟨"p2", true, fun _ _ n => some (n * 10)⟩]
        "task-1" "tool.x" 5 = 60
    ∧ dispatch_before_task
        ([⟨"noop", true, fun _ _ _ => (none : Option Nat)⟩] : List (HookPlugin Nat))
        "task-1" "tool.x" 5 = 5
    ∧ dispatch_before_task
        ([⟨"off", false, fun _ _ n => some (n + 100)⟩] : List (HookPlugin Nat))
        "task-1" "tool.x" 5
      = dispatch_before_task ([] : List (HookPlugin Nat)) "task-1" "tool.x" 5 := by
  refine ⟨?_, ?_, ?_⟩
  · exact (C4_before_task_chain [] []
      ⟨"p1", true, fun _ _ n => some (n + 1)⟩
      ⟨"p2", true, fun _ _ n => some (n * 10)⟩
      ⟨"p1", true, fun _ _ n => some (n + 1)⟩
      "task-1" "tool.x" 5 6 60).2.1 rfl rfl rfl rfl
  · exact (C4_before_task_chain
      [⟨"noop", true, fun _ _ _ => (none : Option Nat)⟩] []
      ⟨"noop", true, fun _ _ _ => none⟩ ⟨"noop", true, fun _ _ _ => none⟩
      ⟨"noop", true, fun _ _ _ => none⟩
      "task-1" "tool.x" 5 5 5).2.2.1 (by intro p hp _; simp at hp; simp [hp])
  · exact (C4_before_task_chain ([] : List (HookPlugin Nat)) []
      ⟨"off", false, fun _ _ n => some (n + 100)⟩
      ⟨"off", false, fun _ _ n => some (n + 100)⟩
      ⟨"off", false, fun _ _ n => some (n + 100)⟩
      "task-1" "tool.x" 5 5 5).2.2.2 rfl

/-- C1: the circuit breaker is a three-state machine: it starts `CLOSED`;
in `CLOSED` a failure below the threshold only counts, the
`failure_threshold`-th consecutive failure opens it stamping `opened_at`,
and any success resets the counter; while `OPEN` within the recovery
timeout every call is rejected without running the body; once
`recovery_timeout` has elapsed since `opened_at` the observed state is
`HALF_OPEN`, where one success returns to `CLOSED` with the counter reset
and one failure returns to `OPEN` with the timer reset. -/
theorem C1_circuit_breaker (ft rt now : Nat) (cb : CircuitBreaker) (b : Bool) :
    ((CircuitBreaker.make ft rt).state = CircuitState.CLOSED
      ∧ (CircuitBreaker.make ft rt).failure_count = 0)
    ∧ (cb.state = CircuitState.CLOSED → cb.failure_count + 1 < cb.failure_threshold →
        (cb.call now false).1 = CallOutcome.ran false
        ∧ (cb.call now false).2.state = CircuitState.CLOSED
        ∧ (cb.call now false).2.failure_count = cb.failure_count + 1)
    ∧ (cb.state = CircuitState.CLOSED → cb.failure_count + 1 = cb.failure_threshold →
        (cb.call now false).2.state = CircuitState.OPEN
        ∧ (cb.call now false).2.opened_at = now)
    ∧ (cb.state = CircuitState.CLOSED →
        (cb.call now true).1 = CallOutcome.ran true
        ∧ (cb.call now true).2.state = CircuitState.CLOSED
        ∧ (cb.call now true).2.failure_count = 0)
    ∧ (cb.state = CircuitState.OPEN → now - cb.opened_at < cb.recovery_timeout →
        (cb.call now b).1 = CallOutcome.rejected ∧ (cb.call now b).2 = cb)
    ∧ (cb.state = CircuitState.OPEN → cb.recovery_timeout ≤ now - cb.opened_at →
        cb.effState now = CircuitState.HALF_OPEN)
    ∧ (cb.effState now = CircuitState.HALF_OPEN →
        ((cb.call now true).2.state = CircuitState.CLOSED
          ∧ (cb.call now true).2.failure_count = 0)
        ∧ ((cb.call now false).2.state = CircuitState.OPEN
          ∧ (cb.call now false).2.opened_at = now)) := by
  refine ⟨⟨rfl, rfl⟩, ?_, ?_, ?_, ?_, ?_, ?_⟩
  · intro hs hlt
    have hnot : ¬ cb.failure_threshold ≤ cb.failure_count + 1 := by omega
    simp [CircuitBreaker.call, CircuitBreaker.effState, hs, hnot]
  · intro hs heq
    have hle : cb.failure_threshold ≤ cb.failure_count + 1 := by omega
    simp [CircuitBreaker.call, CircuitBreaker.effState, hs, hle]
  · intro hs
    simp [CircuitBreaker.call, CircuitBreaker.effState, hs]
  · intro hs hlt
    have hnot : ¬ cb.recovery_timeout ≤ now - cb.opened_at := by omega
    simp [CircuitBreaker.call, CircuitBreaker.effState, hs, hnot]
  · intro hs hle
    simp [CircuitBreaker.effState, hs, hle]
  · intro hs
    refine ⟨?_, ?_⟩ <;>
      · simp only [CircuitBreaker.call, hs]
        simp

theorem C1_circuit_breaker_witness :
    ((CircuitBreaker.make 3 10).state = CircuitState.CLOSED
      ∧ (CircuitBreaker.make 3 10).failure_count = 0)
    ∧ ((CircuitBreaker.call ⟨3, 10, CircuitState.CLOSED, 1, 0, 0⟩ 0 false).1
          = CallOutcome.ran false
        ∧ (CircuitBreaker.call ⟨3, 10, CircuitState.CLOSED, 1, 0, 0⟩ 0 false).2.state
          = CircuitState.CLOSED
        ∧ (CircuitBreaker.call ⟨3, 10, CircuitState.CLOSED, 1, 0, 0⟩ 0
            false).2.failure_count = 2)
    ∧ ((CircuitBreaker.call ⟨3, 10, CircuitState.CLOSED, 2, 0, 0⟩ 7 false).2.state
          = CircuitState.OPEN
        ∧ (CircuitBreaker.call ⟨3, 10, CircuitState.CLOSED, 2, 0, 0⟩ 7
            false).2.opened_at = 7)
    ∧ ((CircuitBreaker.call ⟨3, 10, CircuitState.CLOSED, 2, 0, 0⟩ 0 true).1
          = CallOutcome.ran true
        ∧ (CircuitBreaker.call ⟨3, 10, CircuitState.CLOSED, 2, 0, 0⟩ 0 true).2.state
          = CircuitState.CLOSED
        ∧ (CircuitBreaker.call ⟨3, 10, CircuitState.CLOSED, 2, 0, 0⟩ 0
            true).2.failure_count = 0)
    ∧ ((CircuitBreaker.call ⟨1, 10, CircuitState.OPEN, 1, 0, 5⟩ 6 true).1
          = CallOutcome.rejected
        ∧ (CircuitBreaker.call ⟨1, 10, CircuitState.OPEN, 1, 0, 5⟩ 6 true).2
          = ⟨1, 10, CircuitState.OPEN, 1, 0, 5⟩)
    ∧ CircuitBreaker.effState ⟨1, 10, CircuitState.OPEN, 1, 0, 5⟩ 15
        = CircuitState.HALF_OPEN
    ∧ (((CircuitBreaker.call ⟨1, 10, CircuitState.OPEN, 1, 0, 5⟩ 15 true).2.state
          = CircuitState.CLOSED
        ∧ (CircuitBreaker.call ⟨1, 10, CircuitState.OPEN, 1, 0, 5⟩ 15
            true).2.failure_count = 0)
        ∧ ((CircuitBreaker.call ⟨1, 10, CircuitState.OPEN, 1, 0, 5⟩ 15 false).2.state
          = CircuitState.OPEN
        ∧ (CircuitBreaker.call ⟨1, 10, CircuitState.OPEN, 1, 0, 5⟩ 15
            false).2.opened_at = 15)) := by
  refine ⟨(C1_circuit_breaker 3 10 0 (CircuitBreaker.make 3 10) true).1,
    (C1_circuit_breaker 3 10 0 ⟨3, 10, CircuitState.CLOSED, 1, 0, 0⟩ true).2.1
      rfl (by decide),
    (C1_circuit_breaker 3 10 7 ⟨3, 10, CircuitState.CLOSED, 2, 0, 0⟩ true).2.2.1
      rfl (by decide),
    (C1_circuit_breaker 3 10 0 ⟨3, 10, CircuitState.CLOSED, 2, 0, 0⟩ true).2.2.2.1
      rfl,
    (C1_circuit_breaker 1 10 6 ⟨1, 10, CircuitState.OPEN, 1, 0, 5⟩ true).2.2.2.2.1
      rfl (by decide),
    (C1_circuit_breaker 1 10 15 ⟨1, 10, CircuitState.OPEN, 1, 0, 5⟩ true).2.2.2.2.2.1
      rfl (by decide),
    (C1_circuit_breaker 1 10 15 ⟨1, 10, CircuitState.OPEN, 1, 0, 5⟩ true).2.2.2.2.2.2
      (by decide)⟩

/-- C8: `evaluate_task` gives confidence at least 0.8 to a task whose
result succeeded and below 0.5 to one whose result failed; whenever the
execution time exceeds `max_execution_time_multiplier` times the
expected time, the evaluation is unsuccessful with a "took too long"
issue and at least one suggestion, even for a successful result. -/
theorem C8_evaluate_task (m : ℚ) (task : EvalTask) (result : EvalResult) :
    (result.success = true →
        8 / 10 ≤ (evaluate_task m task result).confidence)
    ∧ (result.success = false →
        (evaluate_task m task result).confidence < 1 / 2)
    ∧ (∀ expected, task.expected_time_seconds = some expected →
        m * expected < result.execution_time_seconds →
        (evaluate_task m task result).success = false
        ∧ "Task took too long" ∈ (evaluate_task m task result).issues
        ∧ (evaluate_task m task result).suggestions ≠ []) := by
  refine ⟨?_, ?_, ?_⟩
  · intro hs
    unfold evaluate_task
    simp only [hs, if_true]
    split <;> norm_num
  · intro hs
    unfold evaluate_task
    simp only [hs, Bool.false_eq_true, if_false]
    split <;> norm_num
  · intro expected hexp hslow
    unfold evaluate_task
    rw [hexp]
    simp only [decide_eq_true hslow, if_true]
    refine ⟨?_, ?_, ?_⟩
    · trivial
    · split <;> simp
    · split <;> simp

theorem C8_evaluate_task_witness :
    (8 / 10 ≤ (evaluate_task 3 ⟨some 1⟩ ⟨true, none, 5⟩).confidence)
    ∧ ((evaluate_task 3 ⟨none⟩ ⟨false, some "File not found", 1⟩).confidence < 1 / 2)
    ∧ ((evaluate_task 3 ⟨some 1⟩ ⟨true, none, 5⟩).success = false
        ∧ "Task took too long" ∈ (evaluate_task 3 ⟨some 1⟩ ⟨true, none, 5⟩).issues
        ∧ (evaluate_task 3 ⟨some 1⟩ ⟨true, none, 5⟩).suggestions ≠ []) :=
  ⟨(C8_evaluate_task 3 ⟨some 1⟩ ⟨true, none, 5⟩).1 rfl,
   (C8_evaluate_task 3 ⟨none⟩ ⟨false, some "File not found", 1⟩).2.1 rfl,
   (C8_evaluate_task 3 ⟨some 1⟩ ⟨true, none, 5⟩).2.2 1 rfl (by norm_num)⟩

theorem emitRun_all_matching (subs : List Subscription) (name : String) :
    (emitRun subs name).map (·.hid)
      = (subs.filter (fun s => topicMatches s.pattern name)).map (·.hid) := by
  induction subs with
  | nil => rfl
  | cons s rest ih =>
    by_cases h : topicMatches s.pattern name = true
    · simp [emitRun, h, List.filter_cons, ih]
    · simp [emitRun, h, List.filter_cons, ih]

theorem mem_emitRun (subs : List Subscription) (name : String) (s : Subscription)
    (hs : s ∈ subs) (hm : topicMatches s.pattern name = true) :
    ({ hid := s.hid, errored := s.throws } : EmitRecord) ∈ emitRun subs name := by
  induction subs with
  | nil => simp at hs
  | cons s' rest ih =>
    rcases List.mem_cons.mp hs with rfl | hs'
    · simp [emitRun, hm]
    · by_cases h' : topicMatches s'.pattern name = true
      · simp [emitRun, h']
        right
        exact ih hs'
      · simpa [emitRun, h'] using ih hs'

theorem take_append_take {α : Type} (a b : List α) (m : Nat) :
    (a ++ b.take m).take m = (a ++ b).take m := by
  rw [List.take_append_eq_append_take, List.take_append_eq_append_take,
    List.take_take]
  congr 2
  exact Nat.min_eq_left (Nat.sub_le m a.length)

theorem foldl_pushHistory (maxH : Nat) :
    ∀ (events : List String) (h : List String),
      events.foldl (pushHistory maxH) h = (events.reverse ++ h).take maxH
        ∨ (events = [] ∧ events.foldl (pushHistory maxH) h = h) := by
  intro events
  induction events with
  | nil => intro h; exact Or.inr ⟨rfl, rfl⟩
  | cons e es ih =>
    intro h
    left
    have step : (e :: es).foldl (pushHistory maxH) h
        = es.foldl (pushHistory maxH) ((e :: h).take maxH) := rfl
    rcases ih ((e :: h).take maxH) with h1 | ⟨he, h2⟩
    · rw [step, h1, take_append_take]
      simp
    · subst he
      rw [step, h2]
      simp [take_append_take]

/-- C6: `emit` invokes all matching handlers synchronously in
subscription order and a handler exception is caught, so every matching
handler runs even after an earlier one throws; the event history is a
bounded buffer that never holds more than `max_history` events (default
1000), keeping the most recent ones. -/
theorem C6_event_bus (subs : List Subscription) (name : String)
    (events : List String) (maxH : Nat) :
    ((emitRun subs name).map (·.hid)
      = (subs.filter (fun s => topicMatches s.pattern name)).map (·.hid))
    ∧ (∀ s ∈ subs, topicMatches s.pattern name = true →
        ({ hid := s.hid, errored := s.throws } : EmitRecord) ∈ emitRun subs name)
    ∧ (historyAfter maxH events).length ≤ maxH
    ∧ historyAfter maxH events = events.reverse.take maxH
    ∧ max_history_default = 1000 := by
  have hh : historyAfter maxH events = events.reverse.take maxH := by
    unfold historyAfter
    rcases foldl_pushHistory maxH events [] with h | ⟨he, h⟩
    · simpa using h
    · subst he; simp [h]
  refine ⟨emitRun_all_matching subs name,
    fun s hs hm => mem_emitRun subs name s hs hm, ?_, hh, rfl⟩
  rw [hh]
  exact List.length_take_le maxH events.reverse

theorem C6_event_bus_witness :
    ({ hid := 2, errored := false } : EmitRecord)
      ∈ emitRun [⟨"test", 1, true⟩, ⟨"test", 2, false⟩] "test"
    ∧ historyAfter 5 ((List.range 10).map (fun i => toString i))
      = ((List.range 10).map (fun i => toString i)).reverse.take 5 :=
  ⟨(C6_event_bus [⟨"test", 1, true⟩, ⟨"test", 2, false⟩] "test" [] 5).2.1
      ⟨"test", 2, false⟩ (by simp) (by decide),
   (C6_event_bus [] "test" ((List.range 10).map (fun i => toString i)) 5).2.2.2.1⟩

theorem lookup_setBucket_self (bs : List (String × Bucket)) (k : String)
    (b : Bucket) : (setBucket bs k b).lookup k = some b := by
  induction bs with
  | nil => simp [setBucket]
  | cons p rest ih =>
    by_cases h : p.1 = k
    · simp [setBucket, h]
    · have hbeq : (p.1 == k) = false := by simpa using h
      have hbeq2 : (k == p.1) = false := by
        simp only [beq_eq_false_iff_ne, ne_eq]
        exact fun hk => h hk.symm
      simp [setBucket, hbeq, List.lookup, hbeq2, ih]

theorem lookup_setBucket_ne (bs : List (String × Bucket)) (k k2 : String)
    (b : Bucket) (h : k2 ≠ k) : (setBucket bs k b).lookup k2 = bs.lookup k2 := by
  induction bs with
  | nil =>
    have : (k2 == k) = false := by simpa using h
    simp [setBucket, List.lookup, this]
  | cons p rest ih =>
    by_cases hp : p.1 = k
    · have h1 : (k2 == p.1) = false := by
        simp only [beq_eq_false_iff_ne, ne_eq]
        exact fun hk => h (hk.trans hp)
      have h2 : (k2 == k) = false := by simpa using h
      simp [setBucket, hp, List.lookup, h1, h2]
    · have hbeq : (p.1 == k) = false := by simpa using hp
      simp [setBucket, hbeq, List.lookup, ih]

theorem setBucket_setBucket (bs : List (String × Bucket)) (k : String)
    (b b2 : Bucket) : setBucket (setBucket bs k b) k b2 = setBucket bs k b2 := by
  induction bs with
  | nil => simp [setBucket]
  | cons p rest ih =>
    by_cases h : p.1 = k
    · simp [setBucket, h]
    · have hbeq : (p.1 == k) = false := by simpa using h
      simp [setBucket, hbeq, ih]

theorem refill_same_time (rate : ℚ) (cap : Nat) (t now : ℚ)
    (ht : t ≤ (cap : ℚ)) :
    refillBucket rate cap { tokens := t, last := now } now
      = { tokens := t, last := now } := by
  simp [refillBucket, ht, min_eq_right]

theorem check_ok_of (rl : RateLimiter) (key : String) (now t : ℚ)
    (hg : rl.has_global = false)
    (hl : rl.buckets.lookup key = some { tokens := t, last := now })
    (ht : t ≤ (rl.capacity : ℚ)) (h1 : 1 ≤ t) :
    rl.check key now = Except.ok
      { rl with buckets := setBucket rl.buckets key { tokens := t - 1, last := now } } := by
  unfold RateLimiter.check RateLimiter.bucketFor
  rw [hl]
  have hnot : ¬ (t < 1) := not_lt.mpr h1
  simp [hg, refill_same_time rl.rate rl.capacity t now ht, hnot]

theorem check_err_of (rl : RateLimiter) (key : String) (now t : ℚ)
    (hg : rl.has_global = false)
    (hl : rl.buckets.lookup key = some { tokens := t, last := now })
    (ht : t ≤ (rl.capacity : ℚ)) (h1 : t < 1) :
    rl.check key now = Except.error key := by
  unfold RateLimiter.check RateLimiter.bucketFor
  rw [hl]
  simp [hg, refill_same_time rl.rate rl.capacity t now ht, h1]

theorem checkN_ok (key : String) (now : ℚ) :
    ∀ (k : Nat) (rl : RateLimiter) (t : ℚ),
      rl.has_global = false →
      rl.buckets.lookup key = some { tokens := t, last := now } →
      t ≤ (rl.capacity : ℚ) →
      (k : ℚ) ≤ t →
      ∃ rl', rl.checkN key now k = Except.ok rl'
        ∧ rl'.buckets.lookup key = some { tokens := t - k, last := now }
        ∧ rl'.has_global = false
        ∧ rl'.capacity = rl.capacity := by
  intro k
  induction k with
  | zero =>
    intro rl t hg hl ht _
    exact ⟨rl, rfl, by simpa using hl, hg, rfl⟩
  | succ k ih =>
    intro rl t hg hl ht hk
    have hcast : ((k : ℚ) + 1) ≤ t := by push_cast at hk ⊢; linarith
    have h1 : (1 : ℚ) ≤ t := by
      have : (0 : ℚ) ≤ (k : ℚ) := Nat.cast_nonneg k
      linarith
    have hstep := check_ok_of rl key now t hg hl ht h1
    have hl' : (setBucket rl.buckets key { tokens := t - 1, last := now }).lookup key
        = some { tokens := t - 1, last := now } :=
      lookup_setBucket_self rl.buckets key _
    obtain ⟨rl', hrun, hlook, hg', hcap⟩ := ih
      { rl with buckets := setBucket rl.buckets key { tokens := t - 1, last := now } }
      (t - 1) hg hl' (by linarith) (by linarith)
    refine ⟨rl', ?_, ?_, hg', by simpa using hcap⟩
    · show (match rl.check key now with
        | Except.ok rl2 => rl2.checkN key now k
        | Except.error e => Except.error e) = Except.ok rl'
      rw [hstep]
      exact hrun
    · have : t - 1 - (k : ℚ) = t - ((k : ℚ) + 1) := by ring
      rw [hlook, this]
      push_cast
      rfl

theorem checkN_split (rl : RateLimiter) (key : String) (now : ℚ) (m n : Nat) :
    rl.checkN key now (m + n)
      = match rl.checkN key now m with
        | Except.ok rl' => rl'.checkN key now n
        | Except.error e => Except.error e := by
  induction m generalizing rl with
  | zero => simp [RateLimiter.checkN]
  | succ m ih =>
    have hl : m + 1 + n = (m + n) + 1 := by omega
    rw [hl]
    show (match rl.check key now with
        | Except.ok rl2 => rl2.checkN key now (m + n)
        | Except.error e => Except.error e) = _
    cases h : rl.check key now with
    | ok rl2 =>
      simp only [RateLimiter.checkN, h, ih rl2]
    | error e => simp [RateLimiter.checkN, h]

theorem check_fresh_eq (rl : RateLimiter) (key : String) (now : ℚ)
    (h : rl.buckets.lookup key = none) :
    rl.check key now = (rl.reset key now).check key now := by
  unfold RateLimiter.check RateLimiter.reset RateLimiter.bucketFor
  rw [h, lookup_setBucket_self]
  by_cases hg : rl.has_global = true <;> simp [hg, setBucket_setBucket]

theorem checkN_fresh_eq (rl : RateLimiter) (key : String) (now : ℚ) (n : Nat)
    (h : rl.buckets.lookup key = none) :
    rl.checkN key now (n + 1) = (rl.reset key now).checkN key now (n + 1) := by
  show (match rl.check key now with
      | Except.ok rl2 => rl2.checkN key now n
      | Except.error e => Except.error e)
    = (match (rl.reset key now).check key now with
      | Except.ok rl2 => rl2.checkN key now n
      | Except.error e => Except.error e)
  rw [check_fresh_eq rl key now h]

/-- C7: the rate limiter is a per-key token bucket of capacity `C`:
immediately after `reset(key)` — or for a key never seen — the next `C`
consecutive `check(key)` calls succeed and the `(C+1)`-th raises
`RateLimitExceeded(key)`; distinct keys have independent buckets; a
configured global bucket raises `RateLimitExceeded("Global")` when
exhausted regardless of the per-key bucket's state. -/
theorem C7_rate_limiter (rl : RateLimiter) (key key2 : String) (now : ℚ) :
    (rl.has_global = false →
      (∃ rl', (rl.reset key now).checkN key now rl.capacity = Except.ok rl')
      ∧ (rl.reset key now).checkN key now (rl.capacity + 1) = Except.error key)
    ∧ (rl.has_global = false → rl.buckets.lookup key = none →
      (∃ rl', rl.checkN key now rl.capacity = Except.ok rl')
      ∧ rl.checkN key now (rl.capacity + 1) = Except.error key)
    ∧ (∀ rl', rl.check key now = Except.ok rl' → key2 ≠ key →
        rl'.buckets.lookup key2 = rl.buckets.lookup key2)
    ∧ (rl.has_global = true →
        (refillBucket rl.global_rate rl.global_capacity rl.global_bucket now).tokens < 1 →
        rl.check key now = Except.error "Global") := by
  have hreset : ∀ hg : rl.has_global = false,
      (∃ rl', (rl.reset key now).checkN key now rl.capacity = Except.ok rl')
      ∧ (rl.reset key now).checkN key now (rl.capacity + 1) = Except.error key := by
    intro hg
    have hlf : (rl.reset key now).buckets.lookup key
        = some { tokens := (rl.capacity : ℚ), last := now } :=
      lookup_setBucket_self rl.buckets key _
    obtain ⟨rl', hrun, hlook, hg', hcap⟩ := checkN_ok key now rl.capacity
      (rl.reset key now) (rl.capacity : ℚ) hg hlf le_rfl le_rfl
    refine ⟨⟨rl', hrun⟩, ?_⟩
    rw [checkN_split, hrun]
    have hzero : ((rl.capacity : ℚ) - (rl.capacity : ℚ)) = 0 := by ring
    rw [hzero] at hlook
    show (match rl'.check key now with
      | Except.ok rl2 => rl2.checkN key now 0
      | Except.error e => Except.error e) = Except.error key
    rw [check_err_of rl' key now 0 hg' hlook (by positivity) (by norm_num)]
  refine ⟨hreset, ?_, ?_, ?_⟩
  · intro hg hfresh
    constructor
    · cases hcap : rl.capacity with
      | zero => exact ⟨rl, rfl⟩
      | succ c =>
        have h1 := (hreset hg).1
        rw [hcap] at h1
        rw [checkN_fresh_eq rl key now c hfresh]
        exact h1
    · rw [checkN_fresh_eq rl key now rl.capacity hfresh]
      exact (hreset hg).2
  · intro rl' hok hne
    unfold RateLimiter.check at hok
    split at hok
    · cases hok
    · split at hok
      · cases hok
      · cases hok
        exact lookup_setBucket_ne rl.buckets key key2 _ hne
  · intro hg hgt
    unfold RateLimiter.check
    rw [if_pos ⟨hg, hgt⟩]

theorem C7_rate_limiter_witness :
    ((∃ rl', RateLimiter.checkN
        (RateLimiter.reset ⟨1, 2, [], false, 0, 0, ⟨0, 0⟩⟩ "user1" 0) "user1" 0 2
        = Except.ok rl')
      ∧ RateLimiter.checkN
          (RateLimiter.reset ⟨1, 2, [], false, 0, 0, ⟨0, 0⟩⟩ "user1" 0) "user1" 0 3
          = Except.error "user1")
    ∧ ((∃ rl', RateLimiter.checkN ⟨1, 2, [], false, 0, 0, ⟨0, 0⟩⟩ "user1" 0 2
        = Except.ok rl')
      ∧ RateLimiter.checkN ⟨1, 2, [], false, 0, 0, ⟨0, 0⟩⟩ "user1" 0 3
        = Except.error "user1")
    ∧ (RateLimiter.buckets ⟨1, 2, [("user1", ⟨1, 0⟩)], false, 0, 0, ⟨0, 0⟩⟩).lookup
          "user2"
        = (RateLimiter.buckets ⟨1, 2, [], false, 0, 0, ⟨0, 0⟩⟩).lookup "user2"
    ∧ RateLimiter.check ⟨100, 100, [], true, 1, 2, ⟨0, 0⟩⟩ "user3" 0
        = Except.error "Global" := by
  have hok : RateLimiter.check ⟨1, 2, [], false, 0, 0, ⟨0, 0⟩⟩ "user1" 0
      = Except.ok ⟨1, 2, [("user1", ⟨1, 0⟩)], false, 0, 0, ⟨0, 0⟩⟩ := by
    have h2 : min ((2 : Nat) : ℚ) (((2 : Nat) : ℚ) + ((0 : ℚ) - 0) * 1) = 2 := by
      norm_num
    simp only [RateLimiter.check, RateLimiter.bucketFor, refillBucket, setBucket,
      List.lookup]
    norm_num
  have hglt : (refillBucket (1 : ℚ) 2 ⟨0, 0⟩ (0 : ℚ)).tokens < 1 := by
    simp [refillBucket]
  refine ⟨(C7_rate_limiter ⟨1, 2, [], false, 0, 0, ⟨0, 0⟩⟩ "user1" "x" 0).1 rfl,
    (C7_rate_limiter ⟨1, 2, [], false, 0, 0, ⟨0, 0⟩⟩ "user1" "x" 0).2.1 rfl rfl,
    (C7_rate_limiter ⟨1, 2, [], false, 0, 0, ⟨0, 0⟩⟩ "user1" "user2" 0).2.2.1
      ⟨1, 2, [("user1", ⟨1, 0⟩)], false, 0, 0, ⟨0, 0⟩⟩ hok (by decide),
    (C7_rate_limiter ⟨100, 100, [], true, 1, 2, ⟨0, 0⟩⟩ "user3" "x" 0).2.2.2 rfl
      hglt⟩

theorem topoLoop_error_circular (fuel : Nat) :
    ∀ (placed : List String) (acc remaining : List PluginSpec)
      (e : DependencyError),
      topoLoop fuel placed acc remaining = Except.error e →
      ∃ names, names ≠ [] ∧ e = DependencyError.circular names := by
  induction fuel with
  | zero =>
    intro placed acc remaining e h
    cases remaining with
    | nil => cases h
    | cons r rs =>
      simp only [topoLoop, Except.error.injEq] at h
      exact ⟨(r :: rs).map (·.name), by simp, h.symm⟩
  | succ fuel ih =>
    intro placed acc remaining e h
    cases remaining with
    | nil => cases h
    | cons r rs =>
      rw [topoLoop] at h
      cases hp : readyPick placed (r :: rs) with
      | none =>
        rw [hp] at h
        simp only [Except.error.injEq] at h
        exact ⟨(r :: rs).map (·.name), by simp, h.symm⟩
      | some p =>
        rw [hp] at h
        exact ih _ _ _ _ h

theorem topoLoop_ok_perm (fuel : Nat) :
    ∀ (placed : List String) (acc remaining order : List PluginSpec),
      topoLoop fuel placed acc remaining = Except.ok order →
      order.Perm (acc ++ remaining) := by
  induction fuel with
  | zero =>
    intro placed acc remaining order h
    cases remaining with
    | nil =>
      simp only [topoLoop, Except.ok.injEq] at h
      simp [← h]
    | cons r rs => cases h
  | succ fuel ih =>
    intro placed acc remaining order h
    cases remaining with
    | nil =>
      simp only [topoLoop, Except.ok.injEq] at h
      simp [← h]
    | cons r rs =>
      rw [topoLoop] at h
      cases hp : readyPick placed (r :: rs) with
      | none => rw [hp] at h; cases h
      | some p =>
        rw [hp] at h
        have hp' : List.find? (fun q => q.dependencies.all placed.contains)
            (r :: rs) = some p := hp
        have hmem : p ∈ r :: rs := List.mem_of_find?_eq_some hp'
        have hperm := ih _ _ _ _ h
        refine hperm.trans ?_
        have hassoc : (acc ++ [p]) ++ (r :: rs).erase p
            = acc ++ (p :: (r :: rs).erase p) := by
          rw [List.append_assoc]; rfl
        rw [hassoc]
        exact (List.Perm.append_left acc (List.perm_cons_erase hmem).symm)

theorem topoLoop_ok_valid (fuel : Nat) :
    ∀ (placed : List String) (acc remaining order : List PluginSpec),
      topoLoop fuel placed acc remaining = Except.ok order →
      ∃ rest, order = acc ++ rest ∧ isValidOrder placed rest = true := by
  induction fuel with
  | zero =>
    intro placed acc remaining order h
    cases remaining with
    | nil =>
      simp only [topoLoop, Except.ok.injEq] at h
      exact ⟨[], by simp [← h], rfl⟩
    | cons r rs => cases h
  | succ fuel ih =>
    intro placed acc remaining order h
    cases remaining with
    | nil =>
      simp only [topoLoop, Except.ok.injEq] at h
      exact ⟨[], by simp [← h], rfl⟩
    | cons r rs =>
      rw [topoLoop] at h
      cases hp : readyPick placed (r :: rs) with
      | none => rw [hp] at h; cases h
      | some p =>
        rw [hp] at h
        obtain ⟨rest, horder, hvalid⟩ := ih _ _ _ _ h
        refine ⟨p :: rest, ?_, ?_⟩
        · rw [horder, List.append_assoc]; rfl
        · have hp' : List.find? (fun q => q.dependencies.all placed.contains)
              (r :: rs) = some p := hp
          have hall := List.find?_some hp'
          simp only [isValidOrder]
          rw [Bool.and_eq_true]
          exact ⟨hall, hvalid⟩

theorem isValidOrder_earlier :
    ∀ (l : List PluginSpec) (placed : List String),
      isValidOrder placed l = true →
      ∀ i (hi : i < l.length), ∀ d ∈ (l.get ⟨i, hi⟩).dependencies,
        d ∈ placed
        ∨ ∃ j, ∃ hj : j < l.length, j < i ∧ (l.get ⟨j, hj⟩).name = d := by
  intro l
  induction l with
  | nil => intro placed _ i hi; exact absurd hi (by simp)
  | cons p rest ih =>
    intro placed h i hi d hd
    rw [isValidOrder, Bool.and_eq_true] at h
    obtain ⟨h1, h2⟩ := h
    cases i with
    | zero =>
      left
      have := List.all_eq_true.mp h1 d hd
      simpa using this
    | succ i' =>
      have hi' : i' < rest.length := by simpa using hi
      have hd' : d ∈ (rest.get ⟨i', hi'⟩).dependencies := by simpa using hd
      rcases ih (p.name :: placed) h2 i' hi' d hd' with hmem | ⟨j, hj, hji, hname⟩
      · rcases List.mem_cons.mp hmem with heq | hmem'
        · right
          exact ⟨0, by simp, Nat.succ_pos i', by simpa using heq.symm⟩
        · left; exact hmem'
      · right
        refine ⟨j + 1, by simpa using Nat.succ_lt_succ hj,
          Nat.succ_lt_succ hji, ?_⟩
        simpa using hname

theorem resolve_ok_no_cycle (ps order : List PluginSpec)
    (hn : (providedNames ps).Nodup)
    (hok : resolve_load_order ps = Except.ok order) :
    ∀ a, ¬ Relation.TransGen (DependsOn ps) a a := by
  unfold resolve_load_order at hok
  split at hok
  · cases hok
  · have hperm : order.Perm ps := by
      simpa using topoLoop_ok_perm ps.length [] [] ps order hok
    obtain ⟨rest, horder, hvalid⟩ := topoLoop_ok_valid ps.length [] [] ps order hok
    have horder' : order = rest := by simpa using horder
    subst horder'
    have hnodup : (order.map (·.name)).Nodup := by
      have : (order.map (·.name)).Perm (providedNames ps) := hperm.map (·.name)
      exact this.nodup_iff.mpr hn
    -- along a dependency edge the index in the load order strictly drops
    have hedge : ∀ a b, DependsOn ps a b →
        (order.map (·.name)).indexOf b < (order.map (·.name)).indexOf a := by
      intro a b ⟨p, hpmem, hpname, hdep⟩
      have hpord : p ∈ order := hperm.symm.subset hpmem
      obtain ⟨i, hgi⟩ := List.mem_iff_get.mp hpord
      have hd : b ∈ (order.get i).dependencies := by rw [hgi]; exact hdep
      rcases isValidOrder_earlier order [] hvalid i.1 i.2 b
          (by simpa [Fin.eta] using hd) with hfalse | ⟨j, hj, hji, hname⟩
      · simp at hfalse
      · have hb : (order.map (·.name)).indexOf b = j := by
          have hlen : j < (order.map (·.name)).length := by simpa using hj
          have : (order.map (·.name)).get ⟨j, hlen⟩ = b := by
            simpa using hname
          rw [← this]
          have := List.indexOf_getElem hnodup j hlen
          simpa using this
        have ha : (order.map (·.name)).indexOf a = i.1 := by
          have hlen : i.1 < (order.map (·.name)).length := by simp
          have hget : (order.map (·.name)).get ⟨i.1, hlen⟩ = a := by
            simp only [List.get_eq_getElem, List.getElem_map]
            have hcong := congrArg PluginSpec.name hgi
            simpa [List.get_eq_getElem, hpname] using hcong
          rw [← hget]
          have := List.indexOf_getElem hnodup i.1 hlen
          simpa using this
        omega
    intro a hcycle
    have hdrop : ∀ x y, Relation.TransGen (DependsOn ps) x y →
        (order.map (·.name)).indexOf y < (order.map (·.name)).indexOf x := by
      intro x y hxy
      induction hxy with
      | single h => exact hedge _ _ h
      | tail _ h ih => exact lt_trans (hedge _ _ h) ih
    exact lt_irrefl _ (hdrop a a hcycle)

/-- C5: a successful `resolve_load_order` is a permutation of the input
whose order is topologically valid (every plugin comes after all of its
dependencies), and hence the dependency relation restricted to provided
plugins is acyclic; a missing dependency fails with
`DependencyError.missing` listing the missing names before anything is
loaded, and a dependency cycle fails with `DependencyError.circular`
naming the plugins still unplaced, again loading nothing. -/
theorem C5_plugin_load_order (ps order : List PluginSpec) :
    (resolve_load_order ps = Except.ok order →
        order.Perm ps ∧ isValidOrder [] order = true
        ∧ ∀ i (hi : i < order.length), ∀ d ∈ (order.get ⟨i, hi⟩).dependencies,
            ∃ j, ∃ hj : j < order.length, j < i ∧ (order.get ⟨j, hj⟩).name = d)
    ∧ ((providedNames ps).Nodup → resolve_load_order ps = Except.ok order →
        ∀ a, ¬ Relation.TransGen (DependsOn ps) a a)
    ∧ (missingDeps ps ≠ [] →
        resolve_load_order ps
            = Except.error (DependencyError.missing (missingDeps ps))
        ∧ load_plugins ps
            = Except.error (DependencyError.missing (missingDeps ps)))
    ∧ ((providedNames ps).Nodup → missingDeps ps = [] →
        (∃ a, Relation.TransGen (DependsOn ps) a a) →
        ∃ names, names ≠ []
          ∧ resolve_load_order ps = Except.error (DependencyError.circular names)
          ∧ load_plugins ps = Except.error (DependencyError.circular names)) := by
  refine ⟨?_, ?_, ?_, ?_⟩
  · intro hok
    have hres := hok
    unfold resolve_load_order at hres
    split at hres
    · cases hres
    · have hperm : order.Perm ps := by
        simpa using topoLoop_ok_perm ps.length [] [] ps order hres
      obtain ⟨rest, horder, hvalid⟩ := topoLoop_ok_valid ps.length [] [] ps order hres
      have horder' : order = rest := by simpa using horder
      subst horder'
      refine ⟨hperm, hvalid, ?_⟩
      intro i hi d hd
      rcases isValidOrder_earlier order [] hvalid i hi d hd with hfalse | hj
      · simp at hfalse
      · exact hj
  · exact fun hn hok => resolve_ok_no_cycle ps order hn hok
  · intro hmiss
    have hres : resolve_load_order ps
        = Except.error (DependencyError.missing (missingDeps ps)) := by
      unfold resolve_load_order
      rw [if_pos hmiss]
    refine ⟨hres, ?_⟩
    unfold load_plugins
    rw [hres]
  · intro hn hmiss hcycle
    cases hres : resolve_load_order ps with
    | ok ord =>
      obtain ⟨a, ha⟩ := hcycle
      exact absurd ha (resolve_ok_no_cycle ps ord hn hres a)
    | error e =>
      have htopo : topoLoop ps.length [] [] ps = Except.error e := by
        have := hres
        unfold resolve_load_order at this
        rwa [if_neg (by simp [hmiss])] at this
      obtain ⟨names, hne, hcirc⟩ :=
        topoLoop_error_circular ps.length [] [] ps e htopo
      refine ⟨names, hne, ?_, ?_⟩
      · rw [hcirc]
      · unfold load_plugins
        rw [hres, hcirc]

theorem C5_plugin_load_order_witness :
    ((List.Perm
        [(⟨"plugin_a", []⟩ : PluginSpec), ⟨"plugin_b", ["plugin_a"]⟩,
         ⟨"plugin_c", ["plugin_a", "plugin_b"]⟩]
        [⟨"plugin_c", ["plugin_a", "plugin_b"]⟩, ⟨"plugin_b", ["plugin_a"]⟩,
         ⟨"plugin_a", []⟩])
      ∧ isValidOrder []
          [(⟨"plugin_a", []⟩ : PluginSpec), ⟨"plugin_b", ["plugin_a"]⟩,
           ⟨"plugin_c", ["plugin_a", "plugin_b"]⟩] = true)
    ∧ resolve_load_order [(⟨"plugin_b", ["plugin_a"]⟩ : PluginSpec)]
        = Except.error (DependencyError.missing ["plugin_a"])
    ∧ (∃ names, names ≠ []
        ∧ resolve_load_order [(⟨"x", ["y"]⟩ : PluginSpec), ⟨"y", ["x"]⟩]
            = Except.error (DependencyError.circular names)
        ∧ load_plugins [(⟨"x", ["y"]⟩ : PluginSpec), ⟨"y", ["x"]⟩]
            = Except.error (DependencyError.circular names)) := by
  have hres : resolve_load_order
      [(⟨"plugin_c", ["plugin_a", "plugin_b"]⟩ : PluginSpec),
       ⟨"plugin_b", ["plugin_a"]⟩, ⟨"plugin_a", []⟩]
      = Except.ok
        [⟨"plugin_a", []⟩, ⟨"plugin_b", ["plugin_a"]⟩,
         ⟨"plugin_c", ["plugin_a", "plugin_b"]⟩] := by rfl
  have h1 := (C5_plugin_load_order
      [⟨"plugin_c", ["plugin_a", "plugin_b"]⟩, ⟨"plugin_b", ["plugin_a"]⟩,
       ⟨"plugin_a", []⟩]
      [⟨"plugin_a", []⟩, ⟨"plugin_b", ["plugin_a"]⟩,
       ⟨"plugin_c", ["plugin_a", "plugin_b"]⟩]).1 hres
  have hmissing := ((C5_plugin_load_order [⟨"plugin_b", ["plugin_a"]⟩] []).2.2.1
      (by decide)).1
  have hm2 : missingDeps [(⟨"plugin_b", ["plugin_a"]⟩ : PluginSpec)]
      = ["plugin_a"] := by rfl
  have hedge1 : DependsOn [(⟨"x", ["y"]⟩ : PluginSpec), ⟨"y", ["x"]⟩] "x" "y" :=
    ⟨⟨"x", ["y"]⟩, by simp, rfl, by simp⟩
  have hedge2 : DependsOn [(⟨"x", ["y"]⟩ : PluginSpec), ⟨"y", ["x"]⟩] "y" "x" :=
    ⟨⟨"y", ["x"]⟩, by simp, rfl, by simp⟩
  have hcyc := (C5_plugin_load_order
      [(⟨"x", ["y"]⟩ : PluginSpec), ⟨"y", ["x"]⟩] []).2.2.2
      (by decide) (by rfl)
      ⟨"x", Relation.TransGen.head hedge1 (Relation.TransGen.single hedge2)⟩
  exact ⟨⟨h1.1, h1.2.1⟩, by rw [hmissing, hm2], hcyc⟩

theorem stepTask_id (o : String → Bool) (ts : List SchedTask) (t : SchedTask) :
    (stepTask o ts t).id = t.id
      ∧ (stepTask o ts t).dependencies = t.dependencies := by
  unfold stepTask
  repeat' split
  all_goals exact ⟨rfl, rfl⟩

theorem stepTask_nonpending (o : String → Bool) (ts : List SchedTask)
    (t : SchedTask) (h : t.status ≠ TaskStatus.PENDING) :
    stepTask o ts t = t := by
  have hb : (t.status == TaskStatus.PENDING) = false := by simpa using h
  simp [stepTask, hb]

theorem stepTask_pending_after (o : String → Bool) (ts : List SchedTask)
    (t : SchedTask) (h : (stepTask o ts t).status = TaskStatus.PENDING) :
    t.status = TaskStatus.PENDING ∧ depsCompleted ts t = false
      ∧ depBlocked ts t = false := by
  unfold stepTask at h
  split at h
  · rename_i hp
    split at h
    · split at h <;> simp at h
    · rename_i hdc
      split at h
      · simp at h
      · rename_i hdb
        exact ⟨by simpa using hp, by simpa using hdc, by simpa using hdb⟩
  · rename_i hp
    exact absurd (by simpa using h : t.status = TaskStatus.PENDING)
      (by simpa using hp)

theorem stepTask_completed (o : String → Bool) (ts : List SchedTask)
    (t : SchedTask) (h : (stepTask o ts t).status = TaskStatus.COMPLETED) :
    t.status = TaskStatus.COMPLETED
      ∨ (t.status = TaskStatus.PENDING ∧ depsCompleted ts t = true) := by
  unfold stepTask at h
  split at h
  · rename_i hp
    split at h
    · rename_i hdc
      right
      exact ⟨by simpa using hp, hdc⟩
    · split at h
      · simp at h
      · left; exact h
  · left; exact h

theorem stepTask_running (o : String → Bool) (ts : List SchedTask)
    (t : SchedTask) (h : (stepTask o ts t).status = TaskStatus.RUNNING) :
    t.status = TaskStatus.RUNNING := by
  unfold stepTask at h
  split at h
  · split at h
    · split at h <;> simp at h
    · split at h
      · simp at h
      · exact h
  · exact h

theorem stepTask_cancel (o : String → Bool) (ts : List SchedTask)
    (t : SchedTask) (hp : t.status = TaskStatus.PENDING) (d : String)
    (hd : d ∈ t.dependencies) (hf : statusOf ts d = some TaskStatus.FAILED) :
    stepTask o ts t
      = { t with status := TaskStatus.CANCELLED,
                 error := some "dependency failed" } := by
  have hdc : depsCompleted ts t = false := by
    rw [← Bool.not_eq_true]
    intro hall
    have := List.all_eq_true.mp hall d hd
    rw [hf] at this
    simp at this
  have hdb : depBlocked ts t = true := by
    apply List.any_eq_true.mpr
    exact ⟨d, hd, by rw [hf]; simp⟩
  simp [stepTask, hp, hdc, hdb]

theorem find?_stepPlan (o : String → Bool) (ts : List SchedTask) (x : String) :
    (stepPlan o ts).find? (fun u => u.id == x)
      = (ts.find? (fun u => u.id == x)).map (stepTask o ts) := by
  unfold stepPlan
  have hfun : ((fun u => u.id == x) ∘ stepTask o ts)
      = (fun u : SchedTask => u.id == x) := by
    funext u
    simp [Function.comp, (stepTask_id o ts u).1]
  rw [List.find?_map, hfun]

theorem find?_id_of_mem (ts : List SchedTask) (t : SchedTask)
    (hn : (ts.map (·.id)).Nodup) (ht : t ∈ ts) :
    ts.find? (fun u => u.id == t.id) = some t := by
  induction ts with
  | nil => simp at ht
  | cons u rest ih =>
    rcases List.mem_cons.mp ht with rfl | hmem
    · simp [List.find?]
    · have hne : (u.id == t.id) = false := by
        have hu : u.id ∉ rest.map (·.id) := (List.nodup_cons.mp hn).1
        have htid : t.id ∈ rest.map (·.id) := List.mem_map.mpr ⟨t, hmem, rfl⟩
        simp only [beq_eq_false_iff_ne, ne_eq]
        intro he
        rw [he] at hu
        exact hu htid
      have hn' := (List.nodup_cons.mp hn).2
      simp [List.find?, hne, ih hn' hmem]

theorem runPlan_stable (o : String → Bool) :
    ∀ (n : Nat) (ts : List SchedTask) (x : String) (u : SchedTask),
      ts.find? (fun v => v.id == x) = some u →
      u.status ≠ TaskStatus.PENDING →
      (runPlan o ts n).find? (fun v => v.id == x) = some u := by
  intro n
  induction n with
  | zero => intro ts x u h _; exact h
  | succ n ih =>
    intro ts x u h hs
    show (runPlan o (stepPlan o ts) n).find? _ = some u
    apply ih
    · rw [find?_stepPlan, h]
      simp [stepTask_nonpending o ts u hs]
    · exact hs

theorem countP_lt_of_mem {α : Type} (l : List α) (p q : α → Bool)
    (hle : ∀ a ∈ l, q a = true → p a = true) (x : α) (hx : x ∈ l)
    (hpx : p x = true) (hqx : q x = false) : l.countP q < l.countP p := by
  induction l with
  | nil => simp at hx
  | cons a rest ih =>
    rw [List.countP_cons, List.countP_cons]
    rcases List.mem_cons.mp hx with rfl | hmem
    · rw [hpx, hqx]
      have hrest : rest.countP q ≤ rest.countP p :=
        List.countP_mono_left (fun b hb => hle b (List.mem_cons_of_mem _ hb))
      simpa using Nat.lt_succ_of_le hrest
    · have hle' : ∀ b ∈ rest, q b = true → p b = true :=
        fun b hb => hle b (List.mem_cons_of_mem a hb)
      have hlt := ih hle' hmem
      have ha : (if q a then 1 else 0) ≤ (if p a then 1 else 0) := by
        by_cases hqa : q a = true
        · simp [hqa, hle a (List.mem_cons_self a rest) hqa]
        · simp [hqa]
      omega

theorem stepPlan_resolve (o : String → Bool) (ts : List SchedTask)
    (h : ∀ t ∈ ts, ∀ d ∈ t.dependencies, ∃ u ∈ ts, u.id = d) :
    ∀ t2 ∈ stepPlan o ts, ∀ d ∈ t2.dependencies,
      ∃ u ∈ stepPlan o ts, u.id = d := by
  intro t2 ht2 d hd
  obtain ⟨t, ht, rfl⟩ := List.mem_map.mp ht2
  rw [(stepTask_id o ts t).2] at hd
  obtain ⟨u, hu, huid⟩ := h t ht d hd
  exact ⟨stepTask o ts u, List.mem_map.mpr ⟨u, hu, rfl⟩,
    by rw [(stepTask_id o ts u).1]; exact huid⟩

theorem stepPlan_rank (o : String → Bool) (rank : String → Nat)
    (ts : List SchedTask)
    (h : ∀ t ∈ ts, ∀ d ∈ t.dependencies, rank d < rank t.id) :
    ∀ t2 ∈ stepPlan o ts, ∀ d ∈ t2.dependencies, rank d < rank t2.id := by
  intro t2 ht2 d hd
  obtain ⟨t, ht, rfl⟩ := List.mem_map.mp ht2
  rw [(stepTask_id o ts t).2] at hd
  rw [(stepTask_id o ts t).1]
  exact h t ht d hd

theorem stepPlan_noRunning (o : String → Bool) (ts : List SchedTask)
    (h : ∀ t ∈ ts, t.status ≠ TaskStatus.RUNNING) :
    ∀ t2 ∈ stepPlan o ts, t2.status ≠ TaskStatus.RUNNING := by
  intro t2 ht2 hr
  obtain ⟨t, ht, rfl⟩ := List.mem_map.mp ht2
  exact h t ht (stepTask_running o ts t hr)

theorem pend_stepPlan_le (o : String → Bool) (ts : List SchedTask) :
    pendCount (stepPlan o ts) ≤ pendCount ts := by
  unfold pendCount stepPlan
  rw [List.countP_map]
  apply List.countP_mono_left
  intro t _ hq
  have := stepTask_pending_after o ts t (by simpa using hq)
  simpa using this.1

theorem pend_stepPlan_lt (o : String → Bool) (rank : String → Nat)
    (ts : List SchedTask)
    (hres : ∀ t ∈ ts, ∀ d ∈ t.dependencies, ∃ u ∈ ts, u.id = d)
    (hrank : ∀ t ∈ ts, ∀ d ∈ t.dependencies, rank d < rank t.id)
    (hrun : ∀ t ∈ ts, t.status ≠ TaskStatus.RUNNING)
    (hpos : 0 < pendCount ts) :
    pendCount (stepPlan o ts) < pendCount ts := by
  have hPne : ts.filter (fun t => t.status == TaskStatus.PENDING) ≠ [] := by
    intro hempty
    unfold pendCount at hpos
    rw [List.countP_eq_length_filter, hempty] at hpos
    simp at hpos
  cases hm : (ts.filter (fun t => t.status == TaskStatus.PENDING)).argmin
      (fun t => rank t.id) with
  | none => exact absurd (List.argmin_eq_none.mp hm) hPne
  | some tm =>
    have htm_filter : tm ∈ ts.filter (fun t => t.status == TaskStatus.PENDING) :=
      List.argmin_mem hm
    have htm_ts : tm ∈ ts := (List.mem_filter.mp htm_filter).1
    have htm_p : tm.status = TaskStatus.PENDING := by
      simpa using (List.mem_filter.mp htm_filter).2
    have hnotpend : ((stepTask o ts tm).status == TaskStatus.PENDING) = false := by
      rw [← Bool.not_eq_true]
      intro hq
      obtain ⟨_, hdc, hdb⟩ := stepTask_pending_after o ts tm (by simpa using hq)
      have hall : depsCompleted ts tm = true := by
        apply List.all_eq_true.mpr
        intro d hd
        obtain ⟨u, hu, huid⟩ := hres tm htm_ts d hd
        have hsome : (ts.find? (fun w => w.id == d)).isSome :=
          List.find?_isSome.mpr ⟨u, hu, by simp [huid]⟩
        obtain ⟨v, hv⟩ := Option.isSome_iff_exists.mp hsome
        have hvmem : v ∈ ts := List.mem_of_find?_eq_some hv
        have hvid : v.id = d := by simpa using List.find?_some hv
        have hvnr : v.status ≠ TaskStatus.RUNNING := hrun v hvmem
        have hvnp : v.status ≠ TaskStatus.PENDING := by
          intro hvp
          have hvfilter : v ∈ ts.filter (fun t => t.status == TaskStatus.PENDING) :=
            List.mem_filter.mpr ⟨hvmem, by simp [hvp]⟩
          have hle := List.le_of_mem_argmin hvfilter hm
          have hlt := hrank tm htm_ts d hd
          rw [hvid] at hle
          omega
        have hvnf : v.status ≠ TaskStatus.FAILED := by
          intro hvf
          have : depBlocked ts tm = true := by
            apply List.any_eq_true.mpr
            exact ⟨d, hd, by simp [statusOf, hv, hvf]⟩
          rw [this] at hdb
          cases hdb
        have hvnc : v.status ≠ TaskStatus.CANCELLED := by
          intro hvc
          have : depBlocked ts tm = true := by
            apply List.any_eq_true.mpr
            exact ⟨d, hd, by simp [statusOf, hv, hvc]⟩
          rw [this] at hdb
          cases hdb
        have hvcomp : v.status = TaskStatus.COMPLETED := by
          cases hstat : v.status
          · exact absurd hstat hvnp
          · exact absurd hstat hvnr
          · rfl
          · exact absurd hstat hvnf
          · exact absurd hstat hvnc
        simp [statusOf, hv, hvcomp]
      rw [hall] at hdc
      cases hdc
    have hpend : pendCount (stepPlan o ts)
        = ts.countP (fun t => (stepTask o ts t).status == TaskStatus.PENDING) := by
      unfold pendCount stepPlan
      rw [List.countP_map]
      rfl
    rw [hpend]
    exact countP_lt_of_mem ts _ _
      (fun a _ hq => by
        have := stepTask_pending_after o ts a (by simpa using hq)
        simpa using this.1)
      tm htm_ts (by simp [htm_p]) hnotpend

theorem runPlan_done (o : String → Bool) (rank : String → Nat) :
    ∀ (n : Nat) (ts : List SchedTask),
      (∀ t ∈ ts, ∀ d ∈ t.dependencies, ∃ u ∈ ts, u.id = d) →
      (∀ t ∈ ts, ∀ d ∈ t.dependencies, rank d < rank t.id) →
      (∀ t ∈ ts, t.status ≠ TaskStatus.RUNNING) →
      pendCount ts ≤ n →
      planDone (runPlan o ts n) = true := by
  intro n
  induction n with
  | zero =>
    intro ts _ _ hrun hpend
    have hzero : pendCount ts = 0 := Nat.le_zero.mp hpend
    show planDone ts = true
    apply List.all_eq_true.mpr
    intro t ht
    have hnp := List.countP_eq_zero.mp hzero t ht
    have hnr := hrun t ht
    simp only [Bool.and_eq_true, Bool.not_eq_true']
    constructor
    · simpa using hnp
    · simpa using hnr
  | succ n ih =>
    intro ts hres hrank hrun hpend
    show planDone (runPlan o (stepPlan o ts) n) = true
    apply ih (stepPlan o ts) (stepPlan_resolve o ts hres)
      (stepPlan_rank o rank ts hrank) (stepPlan_noRunning o ts hrun)
    rcases Nat.eq_zero_or_pos (pendCount ts) with h0 | hpos
    · have := pend_stepPlan_le o ts
      omega
    · have := pend_stepPlan_lt o rank ts hres hrank hrun hpos
      omega

/-- C3: a task is in the ready set exactly when it is `PENDING` with all
declared dependencies `COMPLETED`, and a scheduler round completes a task
only from the ready set; a `PENDING` task one of whose dependencies has
`FAILED` is marked `CANCELLED` with `error="dependency failed"` by the
next round and stays so forever (the failure never unblocks it); on a DAG
whose dependencies all resolve, the plan reaches a state with no
`PENDING` or `RUNNING` task within `length` rounds; and plan success is
the conjunction of all task successes. -/
theorem C3_plan_scheduler (outcome : String → Bool) (tasks : List SchedTask)
    (t : SchedTask) (d : String) (rank : String → Nat) :
    (t ∈ get_ready_tasks tasks ↔
      t ∈ tasks ∧ t.status = TaskStatus.PENDING
        ∧ ∀ d2 ∈ t.dependencies, statusOf tasks d2 = some TaskStatus.COMPLETED)
    ∧ (t ∈ tasks → (stepTask outcome tasks t).status = TaskStatus.COMPLETED →
        t.status = TaskStatus.COMPLETED ∨ t ∈ get_ready_tasks tasks)
    ∧ ((tasks.map (·.id)).Nodup → t ∈ tasks → t.status = TaskStatus.PENDING →
        d ∈ t.dependencies → statusOf tasks d = some TaskStatus.FAILED →
        ∀ n, (runPlan outcome tasks (n + 1)).find? (fun u => u.id == t.id)
          = some { t with status := TaskStatus.CANCELLED,
                          error := some "dependency failed" })
    ∧ ((∀ u ∈ tasks, ∀ d2 ∈ u.dependencies, ∃ v ∈ tasks, v.id = d2) →
        (∀ u ∈ tasks, ∀ d2 ∈ u.dependencies, rank d2 < rank u.id) →
        (∀ u ∈ tasks, u.status ≠ TaskStatus.RUNNING) →
        planDone (runPlan outcome tasks tasks.length) = true)
    ∧ (planSuccess tasks = true ↔
        ∀ u ∈ tasks, u.status = TaskStatus.COMPLETED) := by
  refine ⟨?_, ?_, ?_, ?_, ?_⟩
  · constructor
    · intro h
      have hmf := List.mem_filter.mp h
      have hb := hmf.2
      rw [Bool.and_eq_true] at hb
      refine ⟨hmf.1, by simpa using hb.1, ?_⟩
      intro d2 hd2
      have := List.all_eq_true.mp hb.2 d2 hd2
      simpa using this
    · rintro ⟨hmem, hstat, hdeps⟩
      apply List.mem_filter.mpr
      refine ⟨hmem, ?_⟩
      rw [Bool.and_eq_true]
      exact ⟨by simp [hstat],
        List.all_eq_true.mpr (fun d2 hd2 => by simp [hdeps d2 hd2])⟩
  · intro hmem hcomp
    rcases stepTask_completed outcome tasks t hcomp with h | ⟨hp, hdc⟩
    · left; exact h
    · right
      apply List.mem_filter.mpr
      refine ⟨hmem, ?_⟩
      rw [Bool.and_eq_true]
      exact ⟨by simp [hp], hdc⟩
  · intro hnodup hmem hp hd hf n
    show (runPlan outcome (stepPlan outcome tasks) n).find? _ = some _
    apply runPlan_stable
    · rw [find?_stepPlan, find?_id_of_mem tasks t hnodup hmem]
      simp [stepTask_cancel outcome tasks t hp d hd hf]
    · simp
  · intro hres hrank hrun
    exact runPlan_done outcome rank tasks.length tasks hres hrank hrun
      (List.countP_le_length _)
  · simp [planSuccess, List.all_eq_true]

theorem C3_plan_scheduler_witness :
    ((⟨"t2", ["t1"], TaskStatus.PENDING, none⟩ : SchedTask).status
        = TaskStatus.COMPLETED
      ∨ (⟨"t2", ["t1"], TaskStatus.PENDING, none⟩ : SchedTask)
        ∈ get_ready_tasks
            [⟨"t1", [], TaskStatus.COMPLETED, none⟩,
             ⟨"t2", ["t1"], TaskStatus.PENDING, none⟩])
    ∧ (runPlan (fun _ => true)
          [⟨"t1", [], TaskStatus.FAILED, some "execution failed"⟩,
           ⟨"t2", ["t1"], TaskStatus.PENDING, none⟩,
           ⟨"t3", [], TaskStatus.COMPLETED, none⟩] 1).find?
          (fun u => u.id == "t2")
        = some ⟨"t2", ["t1"], TaskStatus.CANCELLED, some "dependency failed"⟩
    ∧ planDone (runPlan (fun i => !(i == "t1"))
          [⟨"t1", [], TaskStatus.PENDING, none⟩,
           ⟨"t2", ["t1"], TaskStatus.PENDING, none⟩,
           ⟨"t3", [], TaskStatus.PENDING, none⟩] 3) = true := by
  refine ⟨?_, ?_, ?_⟩
  · exact (C3_plan_scheduler (fun _ => true)
      [⟨"t1", [], TaskStatus.COMPLETED, none⟩,
       ⟨"t2", ["t1"], TaskStatus.PENDING, none⟩]
      ⟨"t2", ["t1"], TaskStatus.PENDING, none⟩ "t1" (fun _ => 0)).2.1
      (by decide) (by decide)
  · exact (C3_plan_scheduler (fun _ => true)
      [⟨"t1", [], TaskStatus.FAILED, some "execution failed"⟩,
       ⟨"t2", ["t1"], TaskStatus.PENDING, none⟩,
       ⟨"t3", [], TaskStatus.COMPLETED, none⟩]
      ⟨"t2", ["t1"], TaskStatus.PENDING, none⟩ "t1" (fun _ => 0)).2.2.1
      (by decide) (by decide) rfl (by decide) (by decide) 0
  · exact (C3_plan_scheduler (fun i => !(i == "t1"))
      [⟨"t1", [], TaskStatus.PENDING, none⟩,
       ⟨"t2", ["t1"], TaskStatus.PENDING, none⟩,
       ⟨"t3", [], TaskStatus.PENDING, none⟩]
      ⟨"t1", [], TaskStatus.PENDING, none⟩ "t1"
      (fun s => if s == "t2" then 1 else 0)).2.2.2.1
      (by decide) (by decide) (by decide)

theorem splitSlash_cons_slash (rest : List Char) :
    splitSlash ('/' :: rest) = [] :: splitSlash rest := by
  simp [splitSlash, splitOnSep]

theorem splitSlash_cons_ne (c : Char) (rest : List Char) (h : ¬ c = '/') :
    splitSlash (c :: rest)
      = (c :: (splitSlash rest).headI) :: (splitSlash rest).tail := by
  have hb : (c == '/') = false := by simpa using h
  simp [splitSlash, splitOnSep, hb]

theorem splitSlash_ne_nil : ∀ cs : List Char, splitSlash cs ≠ []
  | [] => by simp [splitSlash, splitOnSep]
  | c :: rest => by
    by_cases h : c = '/'
    · subst h; rw [splitSlash_cons_slash]; simp
    · rw [splitSlash_cons_ne c rest h]; simp

theorem splitSlash_cons_form (cs : List Char) :
    splitSlash cs = (splitSlash cs).headI :: (splitSlash cs).tail := by
  cases h : splitSlash cs with
  | nil => exact absurd h (splitSlash_ne_nil cs)
  | cons s ss => simp

theorem mem_splitSlash_no_slash :
    ∀ (cs : List Char) (seg : List Char), seg ∈ splitSlash cs → '/' ∉ seg
  | [], seg, h => by
    simp only [splitSlash, splitOnSep, List.mem_singleton] at h
    subst h; simp
  | c :: rest, seg, h => by
    by_cases hc : c = '/'
    · subst hc
      rw [splitSlash_cons_slash] at h
      rcases List.mem_cons.mp h with rfl | h2
      · simp
      · exact mem_splitSlash_no_slash rest seg h2
    · rw [splitSlash_cons_ne c rest hc] at h
      rcases List.mem_cons.mp h with rfl | h2
      · intro hmem
        rcases List.mem_cons.mp hmem with heq | hmem2
        · exact hc heq.symm
        · exact mem_splitSlash_no_slash rest (splitSlash rest).headI
            (by rw [splitSlash_cons_form rest]; exact List.mem_cons_self _ _)
            hmem2
      · exact mem_splitSlash_no_slash rest seg (List.tail_subset _ h2)

theorem splitSlash_append :
    ∀ (s t : List Char), '/' ∉ s →
      splitSlash (s ++ t)
        = (s ++ (splitSlash t).headI) :: (splitSlash t).tail
  | [], t, _ => by simpa using splitSlash_cons_form t
  | c :: s2, t, h => by
    have hc : ¬ c = '/' := fun he => h (by subst he; exact List.mem_cons_self _ _)
    have h2 : '/' ∉ s2 := fun hm => h (List.mem_cons_of_mem c hm)
    rw [List.cons_append, splitSlash_cons_ne c (s2 ++ t) hc,
      splitSlash_append s2 t h2]
    simp

theorem splitSlash_joinSlash :
    ∀ (segs : List (List Char)), (∀ seg ∈ segs, '/' ∉ seg) → segs ≠ [] →
      splitSlash (joinSlash segs) = segs
  | [], _, hne => absurd rfl hne
  | [s], h, _ => by
    have hs : '/' ∉ s := h s (List.mem_cons_self _ _)
    have h2 := splitSlash_append s [] hs
    simpa [joinSlash, splitSlash, splitOnSep] using h2
  | s :: s2 :: rest, h, _ => by
    have hs : '/' ∉ s := h s (List.mem_cons_self _ _)
    have hrest : ∀ seg ∈ s2 :: rest, '/' ∉ seg :=
      fun seg hseg => h seg (List.mem_cons_of_mem s hseg)
    have hih := splitSlash_joinSlash (s2 :: rest) hrest (by simp)
    rw [show joinSlash (s :: s2 :: rest) = s ++ '/' :: joinSlash (s2 :: rest)
        from rfl]
    rw [splitSlash_append s ('/' :: joinSlash (s2 :: rest)) hs,
      splitSlash_cons_slash, hih]
    simp

theorem foldl_normStep_mem :
    ∀ (segs acc : List (List Char)) (x : List Char),
      x ∈ segs.foldl normStep acc → x ∈ acc ∨ x ∈ segs
  | [], _, _, h => Or.inl h
  | seg :: rest, acc, x, h => by
    rw [List.foldl_cons] at h
    rcases foldl_normStep_mem rest (normStep acc seg) x h with hacc | hrest
    · unfold normStep at hacc
      split at hacc
      · exact Or.inl hacc
      · split at hacc
        · exact Or.inl (List.dropLast_subset _ hacc)
        · rcases List.mem_append.mp hacc with h1 | h1
          · exact Or.inl h1
          · right
            have : x = seg := by simpa using h1
            subst this
            exact List.mem_cons_self _ _
    · exact Or.inr (List.mem_cons_of_mem seg hrest)

theorem foldl_normStep_good :
    ∀ (segs acc : List (List Char)),
      (∀ x ∈ acc, keepSeg x = true) →
      ∀ x ∈ segs.foldl normStep acc, keepSeg x = true
  | [], _, hacc, x, h => hacc x h
  | seg :: rest, acc, hacc, x, h => by
    rw [List.foldl_cons] at h
    refine foldl_normStep_good rest (normStep acc seg) ?_ x h
    intro y hy
    unfold normStep at hy
    split at hy
    · exact hacc y hy
    · rename_i h1
      split at hy
      · exact hacc y (List.dropLast_subset _ hy)
      · rename_i h2
        rcases List.mem_append.mp hy with hy1 | hy2
        · exact hacc y hy1
        · have hys : y = seg := by simpa using hy2
          subst hys
          simp only [Bool.or_eq_true, not_or] at h1
          unfold keepSeg
          rw [Bool.and_eq_true, Bool.and_eq_true]
          refine ⟨⟨?_, ?_⟩, ?_⟩
          · simpa using h1.1
          · simpa using h1.2
          · simpa using h2

theorem foldl_normStep_id :
    ∀ (segs acc : List (List Char)),
      (∀ x ∈ segs, keepSeg x = true) →
      segs.foldl normStep acc = acc ++ segs
  | [], acc, _ => by simp
  | seg :: rest, acc, h => by
    have hk := h seg (List.mem_cons_self _ _)
    unfold keepSeg at hk
    rw [Bool.and_eq_true, Bool.and_eq_true] at hk
    have hstep : normStep acc seg = acc ++ [seg] := by
      unfold normStep
      rw [if_neg, if_neg]
      · simpa using hk.2
      · simp only [Bool.or_eq_true, not_or]
        exact ⟨by simpa using hk.1.1, by simpa using hk.1.2⟩
    rw [List.foldl_cons, hstep,
      foldl_normStep_id rest (acc ++ [seg])
        (fun x hx => h x (List.mem_cons_of_mem seg hx))]
    simp

theorem normSegs_splitSlash_idem (cs : List Char) :
    normSegs (splitSlash ('/' :: joinSlash (normSegs (splitSlash cs))))
      = normSegs (splitSlash cs) := by
  rw [splitSlash_cons_slash]
  show List.foldl normStep [] ([] :: _) = _
  rw [List.foldl_cons]
  have hstep0 : normStep [] [] = [] := rfl
  rw [hstep0]
  cases hC : normSegs (splitSlash cs) with
  | nil => rfl
  | cons c0 crest =>
    have hgood : ∀ x ∈ normSegs (splitSlash cs), keepSeg x = true :=
      fun x hx => foldl_normStep_good (splitSlash cs) [] (by simp) x hx
    have hmem : ∀ x ∈ normSegs (splitSlash cs), x ∈ splitSlash cs := by
      intro x hx
      rcases foldl_normStep_mem (splitSlash cs) [] x hx with h0 | h1
      · simp at h0
      · exact h1
    have hnoslash : ∀ x ∈ normSegs (splitSlash cs), '/' ∉ x :=
      fun x hx => mem_splitSlash_no_slash cs x (hmem x hx)
    rw [← hC]
    rw [splitSlash_joinSlash (normSegs (splitSlash cs)) hnoslash
      (by rw [hC]; simp)]
    rw [foldl_normStep_id (normSegs (splitSlash cs)) [] hgood]
    rfl

theorem normalizePath_idem (s : String) :
    normalizePath (normalizePath s) = normalizePath s := by
  show String.mk ('/' :: joinSlash (normSegs (splitSlash
      ('/' :: joinSlash (normSegs (splitSlash s.data)))))) = normalizePath s
  rw [normSegs_splitSlash_idem s.data]
  rfl

theorem stripNulls_idem (s : String) :
    stripNulls (stripNulls s) = stripNulls s := by
  show String.mk ((s.data.filter _).filter _) = String.mk (s.data.filter _)
  rw [List.filter_filter]
  simp

theorem stripNulls_length (s : String) : (stripNulls s).length ≤ s.length := by
  show (s.data.filter _).length ≤ s.data.length
  exact List.length_filter_le _ _

/-- C9: each sanitizing transformation is idempotent on accepted inputs:
`sanitize_input` (length cap then null-byte stripping), `sanitize_command`
(shell-metacharacter check), `sanitize_path` (lexical canonicalization
then blocklist check), and the URL scheme check all satisfy
`sanitize (sanitize x) = sanitize x` whenever `x` is not rejected. -/
theorem C9_sanitize_idempotent (maxLen : Nat) (blocked : List String)
    (x y : String) :
    (sanitize_input maxLen x = Except.ok y →
      sanitize_input maxLen y = Except.ok y)
    ∧ (sanitize_command x = Except.ok y → sanitize_command y = Except.ok y)
    ∧ (sanitize_path blocked x = Except.ok y →
      sanitize_path blocked y = Except.ok y)
    ∧ (sanitize_url x = Except.ok y → sanitize_url y = Except.ok y) := by
  refine ⟨?_, ?_, ?_, ?_⟩
  · intro h
    unfold sanitize_input at h ⊢
    split at h
    · cases h
    · rename_i hlen
      cases h
      have hle : ¬ (maxLen < (stripNulls x).length) := fun hcon =>
        hlen (lt_of_lt_of_le hcon (stripNulls_length x))
      rw [if_neg hle, stripNulls_idem]
  · intro h
    unfold sanitize_command at h ⊢
    split at h
    · cases h
    · rename_i hguard
      cases h
      rw [if_neg hguard]
  · intro h
    unfold sanitize_path at h ⊢
    split at h
    · cases h
    · rename_i hguard
      cases h
      rw [normalizePath_idem x, if_neg hguard]
  · intro h
    unfold sanitize_url at h ⊢
    split at h
    · rename_i hguard
      cases h
      rw [if_pos hguard]
    · cases h

theorem C9_sanitize_idempotent_witness :
    sanitize_input 100 "helloworld" = Except.ok "helloworld"
    ∧ sanitize_command "ls -la" = Except.ok "ls -la"
    ∧ sanitize_path blocked_paths_default "/tmp/other" = Except.ok "/tmp/other"
    ∧ sanitize_url "https://example.com" = Except.ok "https://example.com" :=
  ⟨(C9_sanitize_idempotent 100 blocked_paths_default "hello\x00world"
      "helloworld").1 rfl,
   (C9_sanitize_idempotent 100 blocked_paths_default "ls -la" "ls -la").2.1 rfl,
   (C9_sanitize_idempotent 100 blocked_paths_default "/tmp/test/../other"
      "/tmp/other").2.2.1 rfl,
   (C9_sanitize_idempotent 100 blocked_paths_default "https://example.com"
      "https://example.com").2.2.2 rfl⟩

end LaiosSpec
